import Mathlib

/-!
# multitool / multi.js : test accounting ledger and closeness comparators

A shallow embedding of the pass/fail bookkeeping of `solidity/scripts/multi.js`
(`clearCount`, `assert`, `writePassFail`, `writeBreak`, `readPassFail`) and of
`bigClose`, followed by the properties proved about them.

Modelling conventions.

* JavaScript strings are lists of characters (`Str`).  Every character the code
  inspects (`#`, `!`, space, `\r`, `\n`, digits, letters) lies in the basic plane,
  so code units and code points coincide where it matters.
* JavaScript numbers are binary64 values (`JSNum`): `NaN`, the two infinities, and the
  finite values, each held as the fraction `num / den` in lowest terms (`den` a power of
  two).  `toDouble` rounds an exact fraction to the nearest binary64 value, a tie to the
  even significand, and to an infinity from `2 ^ 1024 - 2 ^ 970` on; `+`, `++` and
  `Number(...)` compute the exact result and round it.  The two zeros are one value
  (`-0 == 0`, and nothing here divides by a counter or prints its sign).
* The module-level variables `exports.total`, `exports.pass`, `exports.fail`
  are the fields of an explicit `Counters` value that each operation receives
  and gives back.
* The record file is an `Option Str`: `none` when it cannot be read, `some data`
  with its whole content otherwise.  A `throw` is the `threw` outcome, which
  keeps the counters as the code left them.
* `writePassFail` is modelled for integer counts: its numeric arguments are integers,
  standing for the integer-valued numbers passed, and `intToString` gives the text
  JavaScript prints for such a number.
* Console output is not modelled.
-/

namespace Multi

/-- JavaScript strings. -/
abbrev Str := List Char

/-! ## Numbers -/

/-- JavaScript numbers: `fin num den` is the finite binary64 value `num / den`. -/
inductive JSNum where
  | nan
  | inf (neg : Bool)
  | fin (num : Int) (den : Nat)
  deriving DecidableEq, Repr

/-- Halving `n` until it is below 2, at most `fuel` times: the number of halvings. -/
def log2Aux : Nat → Nat → Nat
  | 0, _ => 0
  | fuel + 1, n => if n < 2 then 0 else log2Aux fuel (n / 2) + 1

/-- The floor of the binary logarithm of a positive natural number. -/
def ilog2 (n : Nat) : Nat := log2Aux n n

/-- The quotient `n / d` rounded to the nearest natural number, a tie to the even one. -/
def roundHalfEven (n d : Nat) : Nat :=
  if 2 * (n % d) < d then n / d
  else if d < 2 * (n % d) then n / d + 1
  else if (n / d) % 2 = 0 then n / d
  else n / d + 1

/-- The binary exponent of a positive fraction: the `e` with `2 ^ e ≤ p / q < 2 ^ (e + 1)`. -/
def binaryExponent (p q : Nat) : Int :=
  let d : Int := (ilog2 p : Int) - (ilog2 q : Int)
  if q * 2 ^ d.toNat ≤ p * 2 ^ (-d).toNat then d else d - 1

/-- The binary64 magnitude nearest to the fraction `p / q`, in lowest terms: the fraction
is rounded to a multiple of `2 ^ u`, where `u` is its binary exponent less 52 and at
least `-1074`.  The result is `none` when the rounded value reaches `2 ^ 1024`. -/
def toDoubleMag (p q : Nat) : Option (Nat × Nat) :=
  if p = 0 then some (0, 1)
  else
    let u : Int := max (binaryExponent p q - 52) (-1074)
    let n := roundHalfEven (p * 2 ^ (-u).toNat) (q * 2 ^ u.toNat)
    if 1024 ≤ ilog2 (n * 2 ^ u.toNat) then none
    else some (n * 2 ^ u.toNat / Nat.gcd (n * 2 ^ u.toNat) (2 ^ (-u).toNat),
      2 ^ (-u).toNat / Nat.gcd (n * 2 ^ u.toNat) (2 ^ (-u).toNat))

/-- The binary64 value nearest to the fraction `p / q`: round to nearest, ties to even. -/
def toDouble (p : Int) (q : Nat) : JSNum :=
  match toDoubleMag p.natAbs q with
  | none => JSNum.inf (decide (p < 0))
  | some r => JSNum.fin (if p < 0 then -(r.1 : Int) else (r.1 : Int)) r.2

namespace JSNum

/-- The number whose value is the integer `z`, for a `z` that binary64 holds exactly. -/
def ofInt (z : Int) : JSNum := fin z 1

/-- The number an integer numeral `z` denotes: the binary64 value nearest to `z`. -/
def round (z : Int) : JSNum := toDouble z 1

/-- JavaScript `a + b` on numbers: the exact sum, rounded. -/
def add : JSNum → JSNum → JSNum
  | nan, _ => nan
  | _, nan => nan
  | inf a, inf b => if a = b then inf a else nan
  | inf a, fin _ _ => inf a
  | fin _ _, inf b => inf b
  | fin n1 d1, fin n2 d2 => toDouble (n1 * d2 + n2 * d1) (d1 * d2)

instance : Add JSNum := ⟨add⟩

/-- JavaScript `a != b` on numbers (`NaN` differs from everything, itself included). -/
def ne : JSNum → JSNum → Bool
  | nan, _ => true
  | _, nan => true
  | inf a, inf b => a != b
  | inf _, fin _ _ => true
  | fin _ _, inf _ => true
  | fin n1 d1, fin n2 d2 => decide (n1 * d2 ≠ n2 * d1)

/-- JavaScript `isNaN`. -/
def isNaN : JSNum → Bool
  | nan => true
  | _ => false

end JSNum

/-! ## `Number(string)` -/

/-- White space and line terminators that `Number` strips from both ends of a string. -/
def isStrWhiteSpaceChar (c : Char) : Bool :=
  let n := c.toNat
  n = 0x9 || n = 0xA || n = 0xB || n = 0xC || n = 0xD || n = 0x20 || n = 0xA0 ||
  n = 0x1680 || (0x2000 ≤ n && n ≤ 0x200A) || n = 0x2028 || n = 0x2029 ||
  n = 0x202F || n = 0x205F || n = 0x3000 || n = 0xFEFF

/-- Strip leading and trailing white space. -/
def trim (s : Str) : Str :=
  ((s.dropWhile isStrWhiteSpaceChar).reverse.dropWhile isStrWhiteSpaceChar).reverse

/-- Value of a digit character in the given base, when it is one. -/
def digitValue (base : Nat) (c : Char) : Option Nat :=
  let n := c.toNat
  let v := if 48 ≤ n ∧ n ≤ 57 then n - 48
           else if 97 ≤ n ∧ n ≤ 102 then n - 87
           else if 65 ≤ n ∧ n ≤ 70 then n - 55
           else base
  if v < base then some v else none

/-- Decimal digit test. -/
def isDecimalDigit (c : Char) : Bool := (digitValue 10 c).isSome

/-- Value of a run of digits, most significant first (digits that are not of the base count 0). -/
def digitsValue (base : Nat) (ds : Str) : Nat :=
  ds.foldl (fun acc c => acc * base + (digitValue base c).getD 0) 0

/-- The literals `0x...`, `0o...`, `0b...` (either case of the letter), unsigned. -/
def parseNonDecimal (s : Str) : Option Nat :=
  match s with
  | z :: p :: ds =>
      let base := if p = 'x' ∨ p = 'X' then 16
                  else if p = 'o' ∨ p = 'O' then 8
                  else if p = 'b' ∨ p = 'B' then 2
                  else 0
      if z = '0' ∧ base ≠ 0 ∧ ds ≠ [] ∧ ds.all (fun c => (digitValue base c).isSome) then
        some (digitsValue base ds)
      else none
  | _ => none

/-- An optional leading sign: whether it is a minus, and the rest. -/
def stripSign (s : Str) : Bool × Str :=
  match s with
  | c :: r => if c = '-' then (true, r) else if c = '+' then (false, r) else (false, s)
  | [] => (false, [])

/-- The exponent part of a decimal literal: empty, or `e`/`E`, an optional sign and digits. -/
def parseExponent (s : Str) : Option Int :=
  match s with
  | [] => some 0
  | c :: r =>
      if c = 'e' ∨ c = 'E' then
        let sd := stripSign r
        if sd.2 ≠ [] ∧ sd.2.all isDecimalDigit then
          some (if sd.1 then -(digitsValue 10 sd.2 : Int) else (digitsValue 10 sd.2 : Int))
        else none
      else none

/-- The number nearest to `m * 10 ^ x` for a natural `m` and an integer `x`, negated
when `neg`. -/
def scale10 (neg : Bool) (m : Nat) (x : Int) : JSNum :=
  let z : Int := if neg then -(m : Int) else (m : Int)
  if 0 ≤ x then toDouble (z * 10 ^ x.toNat) 1 else toDouble z (10 ^ (-x).toNat)

/-- An unsigned decimal literal: `digits`, `digits.`, `digits.digits`, `.digits`, each
with an optional exponent. -/
def parseUnsignedDecimal (neg : Bool) (u : Str) : JSNum :=
  let ip := u.takeWhile isDecimalDigit
  let r1 := u.dropWhile isDecimalDigit
  let fr : Str × Str := match r1 with
    | c :: r => if c = '.' then (r.takeWhile isDecimalDigit, r.dropWhile isDecimalDigit)
                else ([], r1)
    | [] => ([], [])
  if ip = [] ∧ fr.1 = [] then JSNum.nan
  else match parseExponent fr.2 with
    | none => JSNum.nan
    | some x => scale10 neg (digitsValue 10 (ip ++ fr.1)) (x - (fr.1.length : Int))

/-- The word `Infinity`. -/
def infinityWord : Str := ['I', 'n', 'f', 'i', 'n', 'i', 't', 'y']

/-- JavaScript `Number(s)` for a string `s`. -/
def stringToNumber (s : Str) : JSNum :=
  let t := trim s
  if t = [] then JSNum.ofInt 0
  else match parseNonDecimal t with
    | some n => JSNum.round n
    | none =>
        let sd := stripSign t
        if sd.2 = infinityWord then JSNum.inf sd.1
        else parseUnsignedDecimal sd.1 sd.2

/-- JavaScript `Number(v)` where `v` is a string or `undefined` (`none`). -/
def Number (v : Option Str) : JSNum :=
  match v with
  | none => JSNum.nan
  | some s => stringToNumber s

/-! ## Number to string, for integers -/

/-- The shortest-digits search of number-to-string conversion, for the integer-valued
number `m`: with `j` digits dropped, the two multiples of `10 ^ j` around `m` are tried, and
one that reads back as `m` is taken (the closer one if both do, the lower one if they are
as close and its last kept digit is even); otherwise one digit fewer is dropped.  With no
digit dropped the value is `m` itself. -/
def shortestValue (m : Nat) : Nat → Nat
  | 0 => m
  | j + 1 =>
    let lo := m / 10 ^ (j + 1) * 10 ^ (j + 1)
    let hi := lo + 10 ^ (j + 1)
    let okLo := decide (JSNum.round lo = JSNum.ofInt m) && decide (lo ≠ 0)
    let okHi := decide (JSNum.round hi = JSNum.ofInt m)
    if okLo && okHi then
      (if m - lo < hi - m then lo
       else if hi - m < m - lo then hi
       else if (m / 10 ^ (j + 1)) % 2 = 0 then lo else hi)
    else if okLo then lo
    else if okHi then hi
    else shortestValue m j

/-- The digits of a positive integer with its trailing zeros removed. -/
def significantDigits (v : Nat) : Str :=
  ((Nat.toDigits 10 v).reverse.dropWhile (fun c => c = '0')).reverse

/-- The text of a natural number as JavaScript prints a number with that value: all the
digits below `10 ^ 21`, and from there on the significant digits, a point after the first
when there are more, and the exponent. -/
def natText (v : Nat) : Str :=
  if v < 10 ^ 21 then Nat.toDigits 10 v
  else
    match significantDigits v with
    | [] => Nat.toDigits 10 v
    | d :: ds =>
      (if ds = [] then [d] else d :: '.' :: ds) ++
        'e' :: '+' :: Nat.toDigits 10 ((Nat.toDigits 10 v).length - 1)

/-- String conversion of the number whose value is the integer `z`, as string
concatenation does it. -/
def intToString (z : Int) : Str :=
  let v := shortestValue z.natAbs ((Nat.toDigits 10 z.natAbs).length - 1)
  if z < 0 then '-' :: natText v else natText v

/-! ## Closeness of big numbers -/

/-- The default tolerance `exports.bigEpsilon`, `10 ^ 15`. -/
def bigEpsilon : Int := 10 ^ 15

/-- The function `exports.bigClose` on arbitrary-precision integers. -/
def bigClose (b1 b2 epsilon : Int) : Bool :=
  if b1 > b2 then decide (b1 - b2 < epsilon)
  else decide (b2 - b1 < epsilon)

/-! ## Counters -/

/-- The module variables `exports.total`, `exports.pass`, `exports.fail`. -/
structure Counters where
  total : JSNum
  pass : JSNum
  fail : JSNum
  deriving DecidableEq, Repr

/-- The initial counters, all zero. -/
def Counters.zero : Counters := ⟨JSNum.ofInt 0, JSNum.ofInt 0, JSNum.ofInt 0⟩

/-- Counters holding three integers. -/
def Counters.ofInts (t p f : Int) : Counters := ⟨JSNum.ofInt t, JSNum.ofInt p, JSNum.ofInt f⟩

/-- The test `total != pass + fail` of the code, negated: the ledger invariant. -/
def Counters.consistent (c : Counters) : Bool := !(JSNum.ne c.total (c.pass + c.fail))

/-- The function `exports.clearCount`. -/
def clearCount (_c : Counters) : Counters := Counters.zero

/-- The function `exports.assert`; the condition is given by its truthiness. -/
def assert (c : Counters) (condition : Bool) (_passmsg _failmsg : Str) : Counters :=
  if condition then
    { c with total := c.total + JSNum.ofInt 1, pass := c.pass + JSNum.ofInt 1 }
  else
    { c with total := c.total + JSNum.ofInt 1, fail := c.fail + JSNum.ofInt 1 }

/-- One recorded call of `assert`: condition, pass message, fail message. -/
structure AssertCall where
  condition : Bool
  passmsg : Str
  failmsg : Str

/-- A sequence of `assert` calls, in order. -/
def assertAll (c : Counters) (calls : List AssertCall) : Counters :=
  calls.foldl (fun acc k => assert acc k.condition k.passmsg k.failmsg) c

/-! ## The record file -/

/-- What a call that may `throw` did: the counters it left, and how it ended. -/
inductive Outcome where
  | returned (c : Counters)
  | threw (c : Counters)
  deriving DecidableEq, Repr

/-- The counters an outcome leaves behind. -/
def Outcome.counters : Outcome → Counters
  | returned c => c
  | threw c => c

/-- Whether the call ended with a `throw`. -/
def Outcome.raised : Outcome → Bool
  | returned _ => false
  | threw _ => true

/-- Appending to a file opened with flag `a+`: a missing file is created. -/
def appendFile (file : Option Str) (content : Str) : Option Str :=
  match file with
  | none => some content
  | some data => some (data ++ content)

/-- The text `writePassFail` appends. -/
def passFailContent (testname : Str) (total pass fail now : Int) : Str :=
  testname ++ " total ".toList ++ intToString total ++ " pass ".toList ++ intToString pass ++
    " fail ".toList ++ intToString fail ++ " -- ".toList ++ intToString now ++ ['\n']

/-- What `writePassFail` did: whether it threw, and the record file afterwards. -/
structure WriteResult where
  raised : Bool
  file : Option Str
  deriving DecidableEq, Repr

/-- The function `exports.writePassFail` called with integer counts; `now` is
`date.getTime()`.  The counts are the numbers the integers denote, the test
`total != pass + fail` is the one of the code, on those numbers, and the `throw` comes
before the write. -/
def writePassFail (testname : Str) (total pass fail now : Int) (file : Option Str) :
    WriteResult :=
  if JSNum.ne (JSNum.round total) (JSNum.round pass + JSNum.round fail) = true then
    { raised := true, file := file }
  else { raised := false, file := appendFile file (passFailContent testname total pass fail now) }

/-- The function `exports.writeBreak`; `date` is the rendering of `new Date`. -/
def writeBreak (date : Str) (file : Option Str) : Option Str :=
  appendFile file ("! Resetting counters at ".toList ++ date ++ ['\n'])

/-- The replacement `replace(/\r\n/g, '\n')`. -/
def replaceCRLF : Str → Str
  | [] => []
  | [c] => [c]
  | c :: d :: ds =>
    if c = '\r' ∧ d = '\n' then '\n' :: replaceCRLF ds else c :: replaceCRLF (d :: ds)

/-- The split `split(sep)` on a one-character separator. -/
def splitChar (sep : Char) : Str → List Str
  | [] => [[]]
  | c :: cs =>
    if c = sep then [] :: splitChar sep cs
    else match splitChar sep cs with
      | w :: ws => (c :: w) :: ws
      | [] => [[c]]

/-- The split `split(new RegExp('[ ]+'))`: the separators are the maximal runs of spaces. -/
def splitSpaces : Str → List Str
  | [] => [[]]
  | c :: cs =>
    if c = ' ' then
      match cs with
      | d :: _ => if d = ' ' then splitSpaces cs else [] :: splitSpaces cs
      | [] => [[], []]
    else match splitSpaces cs with
      | w :: ws => (c :: w) :: ws
      | [] => [[c]]

/-- The words looked for at positions 1, 3 and 5. -/
def wordTotal : Str := ['t', 'o', 't', 'a', 'l']
/-- The word at position 3. -/
def wordPass : Str := ['p', 'a', 's', 's']
/-- The word at position 5. -/
def wordFail : Str := ['f', 'a', 'i', 'l']

/-- The test `iarray[1] != "total" || iarray[3] != "pass" || iarray[5] != "fail"`. -/
def badRecord (iarray : List Str) : Bool :=
  iarray[1]? != some wordTotal || iarray[3]? != some wordPass ||
    iarray[5]? != some wordFail

/-- The three `+=` statements on a record line split into `iarray`. -/
def addRecord (c : Counters) (iarray : List Str) : Counters :=
  { total := c.total + Number (iarray[2]?)
    pass := c.pass + Number (iarray[4]?)
    fail := c.fail + Number (iarray[6]?) }

/-- The body of the `for` loop of `readPassFail`, run over the lines that remain. -/
def readLines (c : Counters) : List Str → Outcome
  | [] => Outcome.returned c
  | i :: rest =>
    if i.head? = some '#' then readLines c rest
    else if i.head? = some '!' then readLines (clearCount c) rest
    else
      let iarray := splitSpaces i
      if badRecord iarray then readLines c rest
      else
        let c1 := addRecord c iarray
        if JSNum.ne c1.total (c1.pass + c1.fail) then Outcome.threw c1
        else readLines c1 rest

/-- The lines of the file: `data.toString().replace(/\r\n/g,'\n').split('\n')`. -/
def fileLines (data : Str) : List Str := splitChar '\n' (replaceCRLF data)

/-- The function `exports.readPassFail`. -/
def readPassFail (clear : Bool) (c : Counters) (file : Option Str) : Outcome :=
  let c0 := if clear then clearCount c else c
  match file with
  | none => Outcome.threw c0
  | some data => readLines c0 (fileLines data)

/-! ## The words of the specification -/

/-- A reset marker: a line whose first character is `!`. -/
def isMarker (l : Str) : Bool := l.head? == some '!'

/-- A line that replay accepts as a summary line: neither comment nor marker, with the
three words in place. -/
def isSummary (l : Str) : Bool :=
  l.head? != some '#' && l.head? != some '!' && !badRecord (splitSpaces l)

/-- The count fields of a line, at positions 2, 4 and 6, converted with `Number`. -/
def fieldsOf (l : Str) : Counters :=
  { total := Number ((splitSpaces l)[2]?)
    pass := Number ((splitSpaces l)[4]?)
    fail := Number ((splitSpaces l)[6]?) }

/-- The integer a number is, when it is one. -/
def JSNum.toInt? : JSNum → Option Int
  | JSNum.fin m 1 => some m
  | _ => none

/-- The three count fields of a line as integers, when all three are integers. -/
def intFields (l : Str) : Option (Int × Int × Int) :=
  match (fieldsOf l).total.toInt?, (fieldsOf l).pass.toInt?, (fieldsOf l).fail.toInt? with
  | some t, some p, some f => some (t, p, f)
  | _, _, _ => none

/-- A summary line whose own fields add up: integers with `total = pass + fail`. -/
def selfConsistent (l : Str) : Bool :=
  match intFields l with
  | some (t, p, f) => decide (t = p + f)
  | none => false

/-- The lines that come after the last reset marker (all of them when there is none). -/
def afterLastMarker : List Str → List Str
  | [] => []
  | l :: rest =>
    if rest.any isMarker then afterLastMarker rest
    else if isMarker l then rest
    else l :: rest

/-- Field-wise integer sum of the summary lines of a list. -/
def sumSummaries (ls : List Str) : Int × Int × Int :=
  (((ls.filter isSummary).map fun l => ((intFields l).getD (0, 0, 0)).1).sum,
   ((ls.filter isSummary).map fun l => ((intFields l).getD (0, 0, 0)).2.1).sum,
   ((ls.filter isSummary).map fun l => ((intFields l).getD (0, 0, 0)).2.2).sum)

/-- An integer that binary64 holds exactly, so that it is the value of a number. -/
def isIntegerNumber (z : Int) : Bool := JSNum.round z == JSNum.ofInt z

/-- The size of three integers: the sum of their absolute values. -/
def intWeight (t p f : Int) : Nat := t.natAbs + p.natAbs + f.natAbs

/-- The size of a summary line with integer fields: the sum of their absolute values. -/
def lineWeight (l : Str) : Nat :=
  if isSummary l = true then
    match intFields l with
    | some (t, p, f) => intWeight t p f
    | none => 0
  else 0

/-- The size of a list of lines: the sum of the sizes of its summary lines. -/
def fileWeight (ls : List Str) : Nat := (ls.map lineWeight).sum

/-- The separator between two fields: a run of `n + 1` space characters. -/
def spaces (n : Nat) : Str := List.replicate (n + 1) ' '

/-- A record line of the form `<name> total <T> pass <P> fail <F>` followed by `tail`,
the fields `tT`, `tP`, `tF` as written and the separators runs of spaces. -/
def summaryLine (name : Str) (n1 n2 n3 n4 n5 n6 : Nat) (tT tP tF tail : Str) : Str :=
  name ++ spaces n1 ++ (wordTotal ++ spaces n2 ++ (tT ++ spaces n3 ++ (wordPass ++ spaces n4 ++
    (tP ++ spaces n5 ++ (wordFail ++ spaces n6 ++ (tF ++ tail))))))

/-! ## Rounding of integers -/

theorem log2Aux_eq (fuel : Nat) : ∀ n : Nat, n ≤ fuel → log2Aux fuel n = Nat.log2 n := by
  induction fuel with
  | zero =>
    intro n hn
    have : n = 0 := by omega
    subst this
    simp [log2Aux, Nat.log2_zero]
  | succ k ih =>
    intro n hn
    by_cases h2 : n < 2
    · have : Nat.log2 n = 0 := by
        rw [Nat.log2]
        simp [Nat.not_le.mpr h2]
      simp [log2Aux, h2, this]
    · have hge : n ≥ 2 := by omega
      have hrec : Nat.log2 n = Nat.log2 (n / 2) + 1 := by
        conv_lhs => rw [Nat.log2]
        simp [hge]
      have hle : n / 2 ≤ k := by omega
      simp [log2Aux, h2, ih (n / 2) hle, hrec]

theorem ilog2_eq (n : Nat) : ilog2 n = Nat.log2 n := log2Aux_eq n n (Nat.le_refl n)

theorem ilog2_bounds (n : Nat) (hn : n ≠ 0) : 2 ^ ilog2 n ≤ n ∧ n < 2 ^ (ilog2 n + 1) := by
  rw [ilog2_eq]
  exact ⟨Nat.log2_self_le hn, Nat.lt_log2_self⟩

theorem ilog2_lt_of_lt_pow (n k : Nat) (hn : n ≠ 0) (h : n < 2 ^ k) : ilog2 n < k := by
  rw [ilog2_eq]
  exact (Nat.log2_lt hn).mpr h

theorem roundHalfEven_one (n : Nat) : roundHalfEven n 1 = n := by
  simp [roundHalfEven, Nat.mod_one]

theorem binaryExponent_one (p : Nat) (hp : p ≠ 0) : binaryExponent p 1 = (ilog2 p : Int) := by
  have h1 : ilog2 1 = 0 := by decide
  have hb := (ilog2_bounds p hp).1
  simp only [binaryExponent, h1]
  simp [hb]

/-- A natural number up to `2 ^ 53` is its own binary64 rounding. -/
theorem toDoubleMag_safe (p : Nat) (hp : p ≤ 2 ^ 53) : toDoubleMag p 1 = some (p, 1) := by
  by_cases h0 : p = 0
  · simp [toDoubleMag, h0]
  · obtain ⟨hlo, hhi⟩ := ilog2_bounds p h0
    have hL : ilog2 p ≤ 53 := by
      by_contra hcon
      have : 2 ^ 54 ≤ 2 ^ ilog2 p := Nat.pow_le_pow_right (by norm_num) (by omega)
      omega
    by_cases h53 : ilog2 p = 53
    · have hpe : p = 2 ^ 53 := by
        rw [h53] at hlo
        omega
      subst hpe
      decide
    · have hL2 : ilog2 p ≤ 52 := by omega
      have hu : max ((ilog2 p : Int) - 52) (-1074) = (ilog2 p : Int) - 52 := by omega
      have hup : ((ilog2 p : Int) - 52).toNat = 0 := by omega
      have hdown : (-((ilog2 p : Int) - 52)).toNat = 52 - ilog2 p := by omega
      have hlt : p * 2 ^ (52 - ilog2 p) < 2 ^ 53 := by
        calc p * 2 ^ (52 - ilog2 p) < 2 ^ (ilog2 p + 1) * 2 ^ (52 - ilog2 p) :=
              Nat.mul_lt_mul_of_pos_right hhi (by positivity)
          _ = 2 ^ 53 := by
              rw [← pow_add]
              congr 1
              omega
      have hpos : p * 2 ^ (52 - ilog2 p) ≠ 0 := by positivity
      have hlog : ilog2 (p * 2 ^ (52 - ilog2 p)) < 1024 := by
        have := ilog2_lt_of_lt_pow _ 53 hpos hlt
        omega
      have hg : Nat.gcd (p * 2 ^ (52 - ilog2 p)) (2 ^ (52 - ilog2 p)) = 2 ^ (52 - ilog2 p) :=
        Nat.gcd_eq_right (Dvd.intro_left p rfl)
      have hpow : 0 < 2 ^ (52 - ilog2 p) := by positivity
      simp only [toDoubleMag, h0, if_false, binaryExponent_one p h0, hu, hup, hdown, pow_zero,
        mul_one, roundHalfEven_one, hg, Nat.not_le.mpr hlog]
      rw [Nat.mul_div_cancel _ hpow, Nat.div_self hpow]

theorem toDouble_safe (z : Int) (hz : z.natAbs ≤ 2 ^ 53) : toDouble z 1 = JSNum.fin z 1 := by
  unfold toDouble
  rw [toDoubleMag_safe z.natAbs hz]
  simp only
  split_ifs with h
  · congr 1
    omega
  · congr 1
    omega

theorem JSNum.round_safe (z : Int) (hz : z.natAbs ≤ 2 ^ 53) : JSNum.round z = JSNum.ofInt z :=
  toDouble_safe z hz

theorem JSNum.add_def (a b : JSNum) : a + b = JSNum.add a b := rfl

theorem JSNum.ofInt_add_ofInt (a b : Int) :
    JSNum.ofInt a + JSNum.ofInt b = JSNum.round (a + b) := by
  simp [JSNum.add_def, JSNum.add, JSNum.ofInt, JSNum.round]

theorem JSNum.ofInt_add_safe (a b : Int) (h : (a + b).natAbs ≤ 2 ^ 53) :
    JSNum.ofInt a + JSNum.ofInt b = JSNum.ofInt (a + b) := by
  rw [JSNum.ofInt_add_ofInt, JSNum.round_safe _ h]

theorem JSNum.nan_add (a : JSNum) : JSNum.nan + a = JSNum.nan := by
  cases a <;> rfl

theorem JSNum.add_nan (a : JSNum) : a + JSNum.nan = JSNum.nan := by
  cases a <;> rfl

theorem JSNum.ne_ofInt (a b : Int) :
    JSNum.ne (JSNum.ofInt a) (JSNum.ofInt b) = decide (a ≠ b) := by
  simp [JSNum.ne, JSNum.ofInt]

theorem JSNum.ne_nan_left (a : JSNum) : JSNum.ne JSNum.nan a = true := by
  cases a <;> rfl

theorem JSNum.ne_nan_right (a : JSNum) : JSNum.ne a JSNum.nan = true := by
  cases a <;> rfl

/-! ## bigClose -/

/-- Claim C8: `bigClose b1 b2 epsilon` holds exactly when `|b1 - b2| < epsilon`; it is
symmetric in `b1` and `b2`, with `epsilon = 1` it is equality, and it gives `true` and
`false` on the two sample calls around `10 ^ 18`. -/
theorem bigClose_iff_abs_sub_lt (b1 b2 epsilon : Int) :
    (bigClose b1 b2 epsilon = true ↔ |b1 - b2| < epsilon) ∧
    bigClose b1 b2 epsilon = bigClose b2 b1 epsilon ∧
    (bigClose b1 b2 1 = true ↔ b1 = b2) ∧
    bigClose (10 ^ 18) (10 ^ 18 + 500) 1000 = true ∧
    bigClose (10 ^ 18) (10 ^ 18 + 500) 1 = false := by
  refine ⟨?_, ?_, ?_, by decide, by decide⟩
  · unfold bigClose
    split
    · rename_i h
      rw [abs_of_pos (by omega)]
      simp
    · rename_i h
      rw [abs_of_nonpos (by omega)]
      simp
  · unfold bigClose
    by_cases h1 : b1 > b2 <;> by_cases h2 : b2 > b1 <;> simp [h1, h2]
    · omega
    · have : b1 = b2 := by omega
      subst this
      rfl
  · unfold bigClose
    by_cases h1 : b1 > b2 <;> simp [h1] <;> omega

/-! ## assert -/

theorem assert_ofInts (t p f : Int) (b : Bool) (pm fm : Str)
    (ht : (t + 1).natAbs ≤ 2 ^ 53) (hp : (p + 1).natAbs ≤ 2 ^ 53)
    (hf : (f + 1).natAbs ≤ 2 ^ 53) :
    assert (Counters.ofInts t p f) b pm fm =
      Counters.ofInts (t + 1) (p + if b then 1 else 0) (f + if b then 0 else 1) := by
  cases b <;>
    simp [assert, Counters.ofInts, JSNum.ofInt_add_safe _ _ ht, JSNum.ofInt_add_safe _ _ hp,
      JSNum.ofInt_add_safe _ _ hf]

theorem assertAll_ofInts (calls : List AssertCall) (t p f : Nat) (hp : p ≤ t) (hf : f ≤ t)
    (hlen : t + calls.length ≤ 2 ^ 53) :
    assertAll (Counters.ofInts t p f) calls =
      Counters.ofInts ((t : Int) + calls.length)
        ((p : Int) + calls.countP (fun k => k.condition))
        ((f : Int) + calls.countP (fun k => !k.condition)) := by
  induction calls generalizing t p f with
  | nil => simp [assertAll]
  | cons k ks ih =>
    simp only [List.length_cons] at hlen
    have hstep : assertAll (Counters.ofInts t p f) (k :: ks) =
        assertAll (assert (Counters.ofInts t p f) k.condition k.passmsg k.failmsg) ks := rfl
    rw [hstep, assert_ofInts (t : Int) p f k.condition k.passmsg k.failmsg (by omega) (by omega)
      (by omega)]
    cases hk : k.condition
    · have := ih (t + 1) p (f + 1) (by omega) (by omega) (by omega)
      simp only [Nat.cast_add, Nat.cast_one] at this
      simp only [Bool.false_eq_true, if_false, if_true, add_zero]
      rw [this]
      simp [List.countP_cons, hk]
      ring_nf
    · have := ih (t + 1) (p + 1) f (by omega) (by omega) (by omega)
      simp only [Nat.cast_add, Nat.cast_one] at this
      simp only [if_true, Bool.true_eq_false, if_false, add_zero]
      rw [this]
      simp [List.countP_cons, hk]
      ring_nf

theorem length_eq_pass_add_fail (calls : List AssertCall) :
    (calls.length : Int) = (calls.countP (fun k => k.condition) : Int) +
      (calls.countP (fun k => !k.condition) : Int) := by
  induction calls with
  | nil => simp
  | cons k ks ih =>
    cases hk : k.condition <;> simp [List.countP_cons, hk] <;> omega

theorem ofInts_consistent_iff (t p f : Int) (h : (p + f).natAbs ≤ 2 ^ 53) :
    (Counters.ofInts t p f).consistent = true ↔ t = p + f := by
  simp [Counters.consistent, Counters.ofInts, JSNum.ofInt_add_safe _ _ h, JSNum.ne_ofInt]

/-- Claim C3: from counters `(0, 0, 0)`, after any sequence of `N` `assert` calls, `N` at
most `2 ^ 53` (no run makes more calls than that), the total is `N`, `pass` the number of
calls with a truthy condition, `fail` the number with a falsy one, and
`total = pass + fail`; `assert` is a total function with no throwing outcome. -/
theorem assertAll_counts (calls : List AssertCall) (hN : calls.length ≤ 2 ^ 53) :
    assertAll Counters.zero calls =
      Counters.ofInts calls.length (calls.countP (fun k => k.condition))
        (calls.countP (fun k => !k.condition)) ∧
    (calls.length : Int) = (calls.countP (fun k => k.condition) : Int) +
        (calls.countP (fun k => !k.condition) : Int) ∧
    (assertAll Counters.zero calls).consistent = true := by
  have h := assertAll_ofInts calls 0 0 0 (le_refl _) (le_refl _) (by omega)
  have hz : Counters.ofInts ((0 : Nat) : Int) ((0 : Nat) : Int) ((0 : Nat) : Int) =
      Counters.zero := rfl
  rw [hz] at h
  simp only [Nat.cast_zero, zero_add] at h
  have hlen := length_eq_pass_add_fail calls
  refine ⟨h, hlen, ?_⟩
  rw [h]
  exact (ofInts_consistent_iff _ _ _ (by omega)).mpr hlen

/-- Witness for C3: three calls, two of them with a truthy condition. -/
theorem assertAll_counts_witness :
    assertAll Counters.zero [⟨true, [], []⟩, ⟨false, [], []⟩, ⟨true, [], []⟩] =
      Counters.ofInts 3 2 1 ∧
    ((3 : Nat) : Int) = ((2 : Nat) : Int) + ((1 : Nat) : Int) ∧
    (assertAll Counters.zero [⟨true, [], []⟩, ⟨false, [], []⟩, ⟨true, [], []⟩]).consistent =
      true :=
  assertAll_counts [⟨true, [], []⟩, ⟨false, [], []⟩, ⟨true, [], []⟩] (by decide)

/-! ## Replay, line by line -/

theorem readLines_skip (c : Counters) (l : Str) (rest : List Str)
    (h1 : l.head? ≠ some '#') (h2 : l.head? ≠ some '!')
    (h3 : badRecord (splitSpaces l) = true) :
    readLines c (l :: rest) = readLines c rest := by
  simp [readLines, h1, h2, h3]

/-- Claim C5: a line that starts with neither `#` nor `!` and whose tokens at positions
1, 3, 5 are not exactly `total`, `pass`, `fail` is skipped: replay of the line followed
by the remaining lines is replay of the remaining lines from the same counters, so there
is no raise on it and no change of the counters; in particular so when `pass` is missing
at position 3. -/
theorem readLines_malformed_skipped (c : Counters) (l : Str) (rest : List Str)
    (h1 : l.head? ≠ some '#') (h2 : l.head? ≠ some '!')
    (h3 : (splitSpaces l)[1]? ≠ some wordTotal ∨ (splitSpaces l)[3]? ≠ some wordPass ∨
      (splitSpaces l)[5]? ≠ some wordFail) :
    readLines c (l :: rest) = readLines c rest ∧
    ((splitSpaces l)[3]? ≠ some wordPass → readLines c (l :: rest) = readLines c rest) := by
  have key : ∀ l : Str, l.head? ≠ some '#' → l.head? ≠ some '!' →
      ((splitSpaces l)[1]? ≠ some wordTotal ∨ (splitSpaces l)[3]? ≠ some wordPass ∨
        (splitSpaces l)[5]? ≠ some wordFail) →
      readLines c (l :: rest) = readLines c rest := by
    intro l h1 h2 h3
    apply readLines_skip c l rest h1 h2
    rcases h3 with h | h | h <;> simp [badRecord, h]
  exact ⟨key l h1 h2 h3, fun h => key l h1 h2 (Or.inr (Or.inl h))⟩

/-- Witness for C5: the line `x total 5 oops 3 fail 2` is skipped. -/
theorem readLines_malformed_skipped_witness :
    readLines Counters.zero ("x total 5 oops 3 fail 2".toList :: ["y total 1 pass 1 fail 0".toList]) =
      readLines Counters.zero ["y total 1 pass 1 fail 0".toList] ∧
    readLines Counters.zero ["y total 1 pass 1 fail 0".toList] =
      Outcome.returned (Counters.ofInts 1 1 0) :=
  ⟨(readLines_malformed_skipped Counters.zero "x total 5 oops 3 fail 2".toList
      ["y total 1 pass 1 fail 0".toList] (by decide) (by decide) (by decide)).1, by decide⟩

/-! ## Replay: the four kinds of line -/

theorem readLines_comment (c : Counters) (l : Str) (rest : List Str)
    (h : l.head? = some '#') : readLines c (l :: rest) = readLines c rest := by
  simp [readLines, h]

theorem readLines_marker (c : Counters) (l : Str) (rest : List Str)
    (h : isMarker l = true) : readLines c (l :: rest) = readLines Counters.zero rest := by
  have h2 : l.head? = some '!' := by simpa [isMarker] using h
  simp [readLines, h2, clearCount]

theorem readLines_summary (c : Counters) (l : Str) (rest : List Str)
    (h : isSummary l = true) :
    readLines c (l :: rest) =
      if (addRecord c (splitSpaces l)).consistent = true
      then readLines (addRecord c (splitSpaces l)) rest
      else Outcome.threw (addRecord c (splitSpaces l)) := by
  simp only [isSummary, Bool.and_eq_true, bne_iff_ne, ne_eq, Bool.not_eq_true'] at h
  obtain ⟨⟨h1, h2⟩, h3⟩ := h
  simp only [readLines, h1, h2, h3, if_false, Counters.consistent]
  by_cases hne : JSNum.ne (addRecord c (splitSpaces l)).total
      ((addRecord c (splitSpaces l)).pass + (addRecord c (splitSpaces l)).fail) = true <;>
    simp [hne]

theorem readLines_not_summary (c : Counters) (l : Str) (rest : List Str)
    (hs : isSummary l = false) (hm : isMarker l = false) :
    readLines c (l :: rest) = readLines c rest := by
  by_cases h1 : l.head? = some '#'
  · exact readLines_comment c l rest h1
  · have h2 : l.head? ≠ some '!' := by simpa [isMarker] using hm
    apply readLines_skip c l rest h1 h2
    simpa [isSummary, h1, h2] using hs

theorem readLines_append (c : Counters) (pre post : List Str) :
    readLines c (pre ++ post) =
      match readLines c pre with
      | Outcome.returned c1 => readLines c1 post
      | Outcome.threw c1 => Outcome.threw c1 := by
  induction pre generalizing c with
  | nil => simp [readLines]
  | cons l ls ih =>
    by_cases hm : isMarker l = true
    · rw [List.cons_append, readLines_marker _ _ _ hm, readLines_marker _ _ _ hm, ih]
    · have hm2 : isMarker l = false := by simpa using hm
      by_cases hs : isSummary l = true
      · rw [List.cons_append, readLines_summary _ _ _ hs, readLines_summary _ _ _ hs]
        split
        · exact ih _
        · rfl
      · have hs2 : isSummary l = false := by simpa using hs
        rw [List.cons_append, readLines_not_summary _ _ _ hs2 hm2,
          readLines_not_summary _ _ _ hs2 hm2, ih]

theorem zero_consistent : Counters.zero.consistent = true := by decide

/-- Replay keeps the invariant when it returns, and breaks it when it throws. -/
theorem readLines_invariant (lines : List Str) (c : Counters) :
    (c.consistent = true → ∀ c1, readLines c lines = Outcome.returned c1 →
      c1.consistent = true) ∧
    (∀ c1, readLines c lines = Outcome.threw c1 → c1.consistent = false) := by
  induction lines generalizing c with
  | nil =>
    constructor
    · intro hc c1 h
      simp only [readLines, Outcome.returned.injEq] at h
      rw [← h]; exact hc
    · intro c1 h
      simp [readLines] at h
  | cons l ls ih =>
    by_cases hm : isMarker l = true
    · rw [readLines_marker _ _ _ hm]
      exact ⟨fun _ => (ih Counters.zero).1 zero_consistent, (ih Counters.zero).2⟩
    · have hm2 : isMarker l = false := by simpa using hm
      by_cases hs : isSummary l = true
      · rw [readLines_summary _ _ _ hs]
        by_cases hk : (addRecord c (splitSpaces l)).consistent = true
        · rw [if_pos hk]
          exact ⟨fun _ => (ih _).1 hk, (ih _).2⟩
        · rw [if_neg hk]
          constructor
          · intro _ c1 h
            simp at h
          · intro c1 h
            simp only [Outcome.threw.injEq] at h
            rw [← h]
            simpa using hk
      · have hs2 : isSummary l = false := by simpa using hs
        rw [readLines_not_summary _ _ _ hs2 hm2]
        exact ih c

theorem JSNum.toInt?_eq_some (a : JSNum) (t : Int) (h : a.toInt? = some t) :
    a = JSNum.ofInt t := by
  unfold JSNum.toInt? at h
  split at h
  · simp only [Option.some.injEq] at h
    rw [h]
    rfl
  · simp at h

theorem intFields_some (l : Str) (t p f : Int) (h : intFields l = some (t, p, f)) :
    fieldsOf l = Counters.ofInts t p f := by
  unfold intFields at h
  generalize fieldsOf l = r at h ⊢
  rcases r with ⟨a, b, d⟩
  simp only at h
  cases ha : a.toInt? <;> cases hb : b.toInt? <;> cases hd : d.toInt? <;>
    simp [ha, hb, hd] at h
  obtain ⟨h1, h2, h3⟩ := h
  subst h1 h2 h3
  simp [Counters.ofInts, JSNum.toInt?_eq_some _ _ ha, JSNum.toInt?_eq_some _ _ hb,
    JSNum.toInt?_eq_some _ _ hd]

theorem addRecord_intFields (c : Counters) (l : Str) (t p f : Int)
    (h : intFields l = some (t, p, f)) :
    addRecord c (splitSpaces l) =
      Counters.mk (c.total + JSNum.ofInt t) (c.pass + JSNum.ofInt p) (c.fail + JSNum.ofInt f) := by
  have h2 := intFields_some l t p f h
  simp only [fieldsOf, Counters.ofInts, Counters.mk.injEq] at h2
  simp [addRecord, h2.1, h2.2.1, h2.2.2]

theorem selfConsistent_iff (l : Str) :
    selfConsistent l = true ↔ ∃ t p f, intFields l = some (t, p, f) ∧ t = p + f := by
  unfold selfConsistent
  cases h : intFields l with
  | none => simp
  | some r =>
    rcases r with ⟨t, p, f⟩
    simp only [Option.some.injEq, Prod.mk.injEq, decide_eq_true_eq]
    constructor
    · intro ht
      exact ⟨t, p, f, ⟨rfl, rfl, rfl⟩, ht⟩
    · rintro ⟨_, _, _, ⟨rfl, rfl, rfl⟩, ht⟩
      exact ht

/-! ## Sizes of integer counters -/

theorem intWeight_zero : intWeight 0 0 0 = 0 := rfl

theorem intWeight_add (t p f t1 p1 f1 : Int) :
    intWeight (t + t1) (p + p1) (f + f1) ≤ intWeight t p f + intWeight t1 p1 f1 := by
  have h1 := Int.natAbs_add_le t t1
  have h2 := Int.natAbs_add_le p p1
  have h3 := Int.natAbs_add_le f f1
  unfold intWeight
  generalize (t + t1).natAbs = a1 at *
  generalize (p + p1).natAbs = a2 at *
  generalize (f + f1).natAbs = a3 at *
  generalize t.natAbs = b1 at *
  generalize p.natAbs = b2 at *
  generalize f.natAbs = b3 at *
  generalize t1.natAbs = c1 at *
  generalize p1.natAbs = c2 at *
  generalize f1.natAbs = c3 at *
  omega

/-- The sums that one record line causes are no larger than the two sizes together. -/
theorem intWeight_add_bounds (t p f t1 p1 f1 : Int) :
    (t + t1).natAbs ≤ intWeight t p f + intWeight t1 p1 f1 ∧
    (p + p1).natAbs ≤ intWeight t p f + intWeight t1 p1 f1 ∧
    (f + f1).natAbs ≤ intWeight t p f + intWeight t1 p1 f1 ∧
    (p + p1 + (f + f1)).natAbs ≤ intWeight t p f + intWeight t1 p1 f1 := by
  have h1 := Int.natAbs_add_le t t1
  have h2 := Int.natAbs_add_le p p1
  have h3 := Int.natAbs_add_le f f1
  have h4 := Int.natAbs_add_le (p + p1) (f + f1)
  unfold intWeight
  generalize (p + p1 + (f + f1)).natAbs = a4 at *
  generalize (t + t1).natAbs = a1 at *
  generalize (p + p1).natAbs = a2 at *
  generalize (f + f1).natAbs = a3 at *
  generalize t.natAbs = b1 at *
  generalize p.natAbs = b2 at *
  generalize f.natAbs = b3 at *
  generalize t1.natAbs = c1 at *
  generalize p1.natAbs = c2 at *
  generalize f1.natAbs = c3 at *
  omega

/-! ## Replay of integer summary lines, without rounding -/

theorem addRecord_ofInts (t p f : Int) (l : Str) (t1 p1 f1 : Int)
    (h : intFields l = some (t1, p1, f1))
    (hb : intWeight t p f + intWeight t1 p1 f1 ≤ 2 ^ 53) :
    addRecord (Counters.ofInts t p f) (splitSpaces l) =
      Counters.ofInts (t + t1) (p + p1) (f + f1) := by
  rw [addRecord_intFields _ l t1 p1 f1 h]
  simp only [Counters.ofInts]
  have hw := intWeight_add_bounds t p f t1 p1 f1
  rw [JSNum.ofInt_add_safe t t1 (le_trans hw.1 hb), JSNum.ofInt_add_safe p p1 (le_trans hw.2.1 hb),
    JSNum.ofInt_add_safe f f1 (le_trans hw.2.2.1 hb)]

theorem readLines_summary_ofInts (t p f : Int) (htpf : t = p + f) (l : Str) (rest : List Str)
    (hs : isSummary l = true) (t1 p1 f1 : Int) (h : intFields l = some (t1, p1, f1))
    (hb : intWeight t p f + intWeight t1 p1 f1 ≤ 2 ^ 53) :
    readLines (Counters.ofInts t p f) (l :: rest) =
      if t1 = p1 + f1 then readLines (Counters.ofInts (t + t1) (p + p1) (f + f1)) rest
      else Outcome.threw (Counters.ofInts (t + t1) (p + p1) (f + f1)) := by
  rw [readLines_summary _ _ _ hs, addRecord_ofInts t p f l t1 p1 f1 h hb]
  have hw := intWeight_add_bounds t p f t1 p1 f1
  have : ((Counters.ofInts (t + t1) (p + p1) (f + f1)).consistent = true) ↔ t1 = p1 + f1 := by
    rw [ofInts_consistent_iff _ _ _ (le_trans hw.2.2.2 hb)]
    clear hw hb
    omega
  by_cases hc : t1 = p1 + f1
  · rw [if_pos hc, if_pos (this.mpr hc)]
  · rw [if_neg hc, if_neg (fun h2 => hc (this.mp h2))]

theorem selfConsistent_false_of_intFields (l : Str) (t p f : Int)
    (h : intFields l = some (t, p, f)) : selfConsistent l = false ↔ t ≠ p + f := by
  simp [selfConsistent, h]

theorem selfConsistent_true_of_intFields (l : Str) (t p f : Int)
    (h : intFields l = some (t, p, f)) : selfConsistent l = true ↔ t = p + f := by
  simp [selfConsistent, h]

theorem lineWeight_summary (l : Str) (hs : isSummary l = true) (t p f : Int)
    (h : intFields l = some (t, p, f)) : lineWeight l = intWeight t p f := by
  simp [lineWeight, hs, h]

theorem fileWeight_cons (l : Str) (ls : List Str) :
    fileWeight (l :: ls) = lineWeight l + fileWeight ls := by
  simp [fileWeight]

theorem fileWeight_append (pre post : List Str) :
    fileWeight (pre ++ post) = fileWeight pre + fileWeight post := by
  simp [fileWeight]

/-- Replay of lines whose summaries are self-consistent integers, from consistent integer
counters and without any sum above `2 ^ 53`, returns consistent integer counters. -/
theorem readLines_good_ofInts (lines : List Str)
    (hgood : ∀ l ∈ lines, isSummary l = true → selfConsistent l = true)
    (t p f : Int) (htpf : t = p + f)
    (hb : intWeight t p f + fileWeight lines ≤ 2 ^ 53) :
    ∃ t1 p1 f1, t1 = p1 + f1 ∧
      intWeight t1 p1 f1 ≤ intWeight t p f + fileWeight lines ∧
      readLines (Counters.ofInts t p f) lines = Outcome.returned (Counters.ofInts t1 p1 f1) := by
  induction lines generalizing t p f with
  | nil => exact ⟨t, p, f, htpf, by omega, rfl⟩
  | cons l ls ih =>
    have hgood2 : ∀ x ∈ ls, isSummary x = true → selfConsistent x = true :=
      fun x hx => hgood x (List.mem_cons_of_mem _ hx)
    rw [fileWeight_cons] at hb ⊢
    by_cases hm : isMarker l = true
    · rw [readLines_marker _ _ _ hm]
      obtain ⟨t1, p1, f1, h1, h2, h3⟩ := ih hgood2 0 0 0 (by norm_num) (by rw [intWeight_zero]; omega)
      exact ⟨t1, p1, f1, h1, by rw [intWeight_zero] at h2; omega, h3⟩
    · have hm2 : isMarker l = false := by simpa using hm
      by_cases hs : isSummary l = true
      · obtain ⟨t1, p1, f1, hi, hc⟩ := (selfConsistent_iff l).mp (hgood l (List.mem_cons_self _ _) hs)
        have hw := lineWeight_summary l hs t1 p1 f1 hi
        have hadd := intWeight_add t p f t1 p1 f1
        rw [readLines_summary_ofInts t p f htpf l ls hs t1 p1 f1 hi (by omega), if_pos hc]
        obtain ⟨t2, p2, f2, h1, h2, h3⟩ := ih hgood2 (t + t1) (p + p1) (f + f1) (by omega)
          (by omega)
        exact ⟨t2, p2, f2, h1, by omega, h3⟩
      · have hs2 : isSummary l = false := by simpa using hs
        rw [readLines_not_summary _ _ _ hs2 hm2]
        obtain ⟨t2, p2, f2, h1, h2, h3⟩ := ih hgood2 t p f htpf (by omega)
        exact ⟨t2, p2, f2, h1, by omega, h3⟩

/-- Replay of integer summary lines from consistent integer counters, without any sum
above `2 ^ 53`, raises exactly when some summary line is not self-consistent. -/
theorem readLines_raised_iff (lines : List Str)
    (hint : ∀ l ∈ lines, isSummary l = true → (intFields l).isSome = true)
    (t p f : Int) (htpf : t = p + f)
    (hb : intWeight t p f + fileWeight lines ≤ 2 ^ 53) :
    (readLines (Counters.ofInts t p f) lines).raised = true ↔
      ∃ l ∈ lines, isSummary l = true ∧ selfConsistent l = false := by
  induction lines generalizing t p f with
  | nil => simp [readLines, Outcome.raised]
  | cons l ls ih =>
    have hint2 : ∀ x ∈ ls, isSummary x = true → (intFields x).isSome = true :=
      fun x hx => hint x (List.mem_cons_of_mem _ hx)
    rw [fileWeight_cons] at hb
    by_cases hm : isMarker l = true
    · rw [readLines_marker _ _ _ hm]
      have hns : isSummary l = false := by
        have : l.head? = some '!' := by simpa [isMarker] using hm
        simp [isSummary, this]
      have h0 : Counters.zero = Counters.ofInts 0 0 0 := rfl
      rw [h0, ih hint2 0 0 0 (by norm_num) (by rw [intWeight_zero]; omega)]
      simp [hns]
    · have hm2 : isMarker l = false := by simpa using hm
      by_cases hs : isSummary l = true
      · have hsome := hint l (List.mem_cons_self _ _) hs
        obtain ⟨⟨t1, p1, f1⟩, hi⟩ := Option.isSome_iff_exists.mp hsome
        have hw := lineWeight_summary l hs t1 p1 f1 hi
        have hadd := intWeight_add t p f t1 p1 f1
        rw [readLines_summary_ofInts t p f htpf l ls hs t1 p1 f1 hi (by omega)]
        by_cases hc : t1 = p1 + f1
        · rw [if_pos hc, ih hint2 _ _ _ (by omega) (by omega)]
          have hsc := (selfConsistent_true_of_intFields l t1 p1 f1 hi).mpr hc
          simp [hsc]
        · rw [if_neg hc]
          have hsc := (selfConsistent_false_of_intFields l t1 p1 f1 hi).mpr hc
          simp only [Outcome.raised, true_iff]
          exact ⟨l, List.mem_cons_self _ _, hs, hsc⟩
      · have hs2 : isSummary l = false := by simpa using hs
        rw [readLines_not_summary _ _ _ hs2 hm2, ih hint2 t p f htpf (by omega)]
        simp [hs2]

/-- Replay raises at the first summary line that is not self-consistent. -/
theorem readLines_raises_at_first (pre : List Str) (l : Str) (post : List Str)
    (hgood : ∀ x ∈ pre, isSummary x = true → selfConsistent x = true)
    (hs : isSummary l = true) (hi : (intFields l).isSome = true)
    (hbad : selfConsistent l = false) (t p f : Int) (htpf : t = p + f)
    (hb : intWeight t p f + fileWeight (pre ++ l :: post) ≤ 2 ^ 53) :
    ∃ cpre, readLines (Counters.ofInts t p f) pre = Outcome.returned cpre ∧
      readLines (Counters.ofInts t p f) (pre ++ l :: post) =
        Outcome.threw (addRecord cpre (splitSpaces l)) := by
  rw [fileWeight_append, fileWeight_cons] at hb
  obtain ⟨t1, p1, f1, h1, hb1, hpre⟩ := readLines_good_ofInts pre hgood t p f htpf (by omega)
  refine ⟨_, hpre, ?_⟩
  rw [readLines_append, hpre]
  obtain ⟨⟨t2, p2, f2⟩, hi2⟩ := Option.isSome_iff_exists.mp hi
  have hne := (selfConsistent_false_of_intFields l t2 p2 f2 hi2).mp hbad
  have hw := lineWeight_summary l hs t2 p2 f2 hi2
  simp only
  rw [readLines_summary_ofInts t1 p1 f1 h1 l post hs t2 p2 f2 hi2 (by omega), if_neg hne,
    addRecord_ofInts t1 p1 f1 l t2 p2 f2 hi2 (by omega)]

/-! ## Replay across a reset marker -/

theorem sumSummaries_cons_summary (l : Str) (ls : List Str) (hs : isSummary l = true)
    (t p f : Int) (hi : intFields l = some (t, p, f)) :
    sumSummaries (l :: ls) =
      (t + (sumSummaries ls).1, p + (sumSummaries ls).2.1, f + (sumSummaries ls).2.2) := by
  simp [sumSummaries, List.filter_cons, hs, hi]

theorem sumSummaries_cons_other (l : Str) (ls : List Str) (hs : isSummary l = false) :
    sumSummaries (l :: ls) = sumSummaries ls := by
  simp [sumSummaries, List.filter_cons, hs]

/-- Without a marker, replay of self-consistent integer summaries adds their field-wise
sum to the counters. -/
theorem readLines_no_marker (lines : List Str)
    (hgood : ∀ l ∈ lines, isSummary l = true → selfConsistent l = true)
    (hnm : lines.any isMarker = false) (t p f : Int) (htpf : t = p + f)
    (hb : intWeight t p f + fileWeight lines ≤ 2 ^ 53) :
    readLines (Counters.ofInts t p f) lines =
      Outcome.returned (Counters.ofInts (t + (sumSummaries lines).1)
        (p + (sumSummaries lines).2.1) (f + (sumSummaries lines).2.2)) := by
  induction lines generalizing t p f with
  | nil => simp [readLines, sumSummaries]
  | cons l ls ih =>
    have hgood2 : ∀ x ∈ ls, isSummary x = true → selfConsistent x = true :=
      fun x hx => hgood x (List.mem_cons_of_mem _ hx)
    simp only [List.any_cons, Bool.or_eq_false_iff] at hnm
    obtain ⟨hm2, hnm2⟩ := hnm
    rw [fileWeight_cons] at hb
    by_cases hs : isSummary l = true
    · obtain ⟨t1, p1, f1, hi, hk⟩ := (selfConsistent_iff l).mp (hgood l (List.mem_cons_self _ _) hs)
      have hw := lineWeight_summary l hs t1 p1 f1 hi
      have hadd := intWeight_add t p f t1 p1 f1
      rw [readLines_summary_ofInts t p f htpf l ls hs t1 p1 f1 hi (by omega), if_pos hk,
        ih hgood2 hnm2 _ _ _ (by omega) (by omega), sumSummaries_cons_summary l ls hs t1 p1 f1 hi]
      simp only [add_assoc]
    · have hs2 : isSummary l = false := by simpa using hs
      rw [readLines_not_summary _ _ _ hs2 hm2, ih hgood2 hnm2 t p f htpf (by omega),
        sumSummaries_cons_other l ls hs2]

theorem afterLastMarker_split (lines : List Str) (h : lines.any isMarker = true) :
    ∃ pre m, lines = pre ++ m :: afterLastMarker lines ∧ isMarker m = true ∧
      (afterLastMarker lines).any isMarker = false := by
  induction lines with
  | nil => simp at h
  | cons l ls ih =>
    by_cases hr : ls.any isMarker = true
    · obtain ⟨pre, m, h1, h2, h3⟩ := ih hr
      refine ⟨l :: pre, m, ?_, h2, ?_⟩
      · simp only [afterLastMarker, hr, if_true, List.cons_append]
        rw [← h1]
      · simpa only [afterLastMarker, hr, if_true] using h3
    · have hr2 : ls.any isMarker = false := by simpa using hr
      have hl : isMarker l = true := by
        simp only [List.any_cons, Bool.or_eq_true] at h
        rcases h with h | h
        · exact h
        · exact absurd h hr
      refine ⟨[], l, ?_, hl, ?_⟩
      · simp [afterLastMarker, hr2, hl]
      · simp [afterLastMarker, hr2, hl]

/-- Replay of a file of self-consistent integer summaries with a marker, without any sum
above `2 ^ 53`: the result is the field-wise sum of the summaries after the last marker. -/
theorem readLines_after_reset (lines : List Str)
    (hgood : ∀ l ∈ lines, isSummary l = true → selfConsistent l = true)
    (hmark : lines.any isMarker = true) (t p f : Int) (htpf : t = p + f)
    (hb : intWeight t p f + fileWeight lines ≤ 2 ^ 53) :
    readLines (Counters.ofInts t p f) lines =
      Outcome.returned (Counters.ofInts (sumSummaries (afterLastMarker lines)).1
        (sumSummaries (afterLastMarker lines)).2.1 (sumSummaries (afterLastMarker lines)).2.2) := by
  obtain ⟨pre, m, hsplit, hm, hnm⟩ := afterLastMarker_split lines hmark
  have hgpre : ∀ x ∈ pre, isSummary x = true → selfConsistent x = true := by
    intro x hx
    apply hgood
    rw [hsplit]
    exact List.mem_append_left _ hx
  have hgpost : ∀ x ∈ afterLastMarker lines, isSummary x = true → selfConsistent x = true := by
    intro x hx
    apply hgood
    rw [hsplit]
    exact List.mem_append_right _ (List.mem_cons_of_mem _ hx)
  have hw : fileWeight lines =
      fileWeight pre + (lineWeight m + fileWeight (afterLastMarker lines)) := by
    conv_lhs => rw [hsplit]
    rw [fileWeight_append, fileWeight_cons]
  obtain ⟨t1, p1, f1, _, _, hpre⟩ := readLines_good_ofInts pre hgpre t p f htpf (by omega)
  have h0 : Counters.zero = Counters.ofInts 0 0 0 := rfl
  conv_lhs => rw [hsplit]
  rw [readLines_append, hpre]
  simp only
  rw [readLines_marker _ _ _ hm, h0,
    readLines_no_marker _ hgpost hnm 0 0 0 (by norm_num) (by rw [intWeight_zero]; omega)]
  simp

/-! ## Splitting on runs of spaces -/

theorem splitSpaces_space (t : Str) :
    splitSpaces (' ' :: t) = [] :: splitSpaces (t.dropWhile (fun c => c = ' ')) := by
  induction t with
  | nil => simp [splitSpaces]
  | cons d ds ih =>
    by_cases hd : d = ' '
    · subst hd
      conv_lhs => rw [splitSpaces.eq_def]
      simp only [if_true, List.dropWhile_cons, decide_True]
      exact ih
    · conv_lhs => rw [splitSpaces.eq_def]
      simp [hd]

theorem splitSpaces_nonspace (c : Char) (hc : c ≠ ' ') (w : Str) (ws : List Str) (t : Str)
    (h : splitSpaces t = w :: ws) : splitSpaces (c :: t) = (c :: w) :: ws := by
  conv_lhs => rw [splitSpaces.eq_def]
  simp [hc, h]

theorem splitSpaces_word_space (w : Str) (hw : ∀ c ∈ w, c ≠ ' ') (t : Str) :
    splitSpaces (w ++ ' ' :: t) = w :: splitSpaces (t.dropWhile (fun c => c = ' ')) := by
  induction w with
  | nil => exact splitSpaces_space t
  | cons c cs ih =>
    have hc : c ≠ ' ' := hw c (List.mem_cons_self _ _)
    have ih2 := ih (fun x hx => hw x (List.mem_cons_of_mem _ hx))
    exact splitSpaces_nonspace c hc _ _ _ ih2

theorem splitSpaces_word (w : Str) (hw : ∀ c ∈ w, c ≠ ' ') : splitSpaces w = [w] := by
  induction w with
  | nil => simp [splitSpaces]
  | cons c cs ih =>
    have hc : c ≠ ' ' := hw c (List.mem_cons_self _ _)
    have ih2 := ih (fun x hx => hw x (List.mem_cons_of_mem _ hx))
    exact splitSpaces_nonspace c hc _ _ _ ih2

theorem dropWhile_spaces_append (n : Nat) (t : Str) (ht : t.head? ≠ some ' ') :
    (List.replicate n ' ' ++ t).dropWhile (fun c => c = ' ') = t := by
  induction n with
  | zero =>
    cases t with
    | nil => simp
    | cons d ds =>
      have : d ≠ ' ' := by simpa using ht
      simp [List.dropWhile_cons, this]
  | succ k ih =>
    simp [List.replicate_succ, List.dropWhile_cons, ih]

/-- A word, a run of one or more spaces, and what follows, where what follows does not
begin with a space. -/
theorem splitSpaces_word_sep (w : Str) (hw : ∀ c ∈ w, c ≠ ' ') (n : Nat) (t : Str)
    (ht : t.head? ≠ some ' ') :
    splitSpaces (w ++ List.replicate (n + 1) ' ' ++ t) = w :: splitSpaces t := by
  have : w ++ List.replicate (n + 1) ' ' ++ t = w ++ ' ' :: (List.replicate n ' ' ++ t) := by
    simp [List.replicate_succ]
  rw [this, splitSpaces_word_space w hw, dropWhile_spaces_append n t ht]

/-- A word followed by nothing or by something that begins with a space. -/
theorem splitSpaces_last_word (w : Str) (hw : ∀ c ∈ w, c ≠ ' ') (t : Str)
    (ht : t = [] ∨ t.head? = some ' ') :
    ∃ more, splitSpaces (w ++ t) = w :: more := by
  rcases ht with ht | ht
  · subst ht
    exact ⟨[], by simpa using splitSpaces_word w hw⟩
  · cases t with
    | nil => simp at ht
    | cons d ds =>
      have hd : d = ' ' := by simpa using ht
      subst hd
      exact ⟨_, splitSpaces_word_space w hw ds⟩

/-! ## Decimal digits -/

theorem isDecimalDigit_iff (c : Char) : isDecimalDigit c = true ↔ 48 ≤ c.toNat ∧ c.toNat ≤ 57 := by
  unfold isDecimalDigit digitValue
  simp only
  split_ifs <;> simp <;> omega

theorem digitValue_digitChar (k : Nat) (hk : k < 10) :
    digitValue 10 (Nat.digitChar k) = some k := by
  interval_cases k <;> decide

theorem isDecimalDigit_digitChar (k : Nat) (hk : k < 10) :
    isDecimalDigit (Nat.digitChar k) = true := by
  simp [isDecimalDigit, digitValue_digitChar k hk]

theorem digitsValue_append_single (ds : Str) (c : Char) :
    digitsValue 10 (ds ++ [c]) = digitsValue 10 ds * 10 + (digitValue 10 c).getD 0 := by
  simp [digitsValue, List.foldl_append]

/-- The digits that `Nat.toDigitsCore` puts in front of its accumulator. -/
theorem toDigitsCore_spec (fuel : Nat) : ∀ (n : Nat) (acc : Str), n < fuel →
    ∃ L : Str, Nat.toDigitsCore 10 fuel n acc = L ++ acc ∧ L ≠ [] ∧
      (∀ c ∈ L, isDecimalDigit c = true) ∧ digitsValue 10 L = n := by
  induction fuel with
  | zero => intro n acc h; omega
  | succ k ih =>
    intro n acc h
    have hmod : n % 10 < 10 := Nat.mod_lt _ (by norm_num)
    by_cases hq : n / 10 = 0
    · refine ⟨[Nat.digitChar (n % 10)], ?_, by simp, ?_, ?_⟩
      · simp [Nat.toDigitsCore, hq]
      · intro c hc
        simp only [List.mem_singleton] at hc
        rw [hc]
        exact isDecimalDigit_digitChar _ hmod
      · simp only [digitsValue, List.foldl_cons, List.foldl_nil, zero_mul, zero_add,
          digitValue_digitChar _ hmod, Option.getD_some]
        omega
    · have hlt : n / 10 < k := by omega
      obtain ⟨L, h1, h2, h3, h4⟩ := ih (n / 10) (Nat.digitChar (n % 10) :: acc) hlt
      refine ⟨L ++ [Nat.digitChar (n % 10)], ?_, by simp, ?_, ?_⟩
      · simp [Nat.toDigitsCore, hq, h1]
      · intro c hc
        rcases List.mem_append.mp hc with hc | hc
        · exact h3 c hc
        · simp only [List.mem_singleton] at hc
          rw [hc]
          exact isDecimalDigit_digitChar _ hmod
      · rw [digitsValue_append_single, h4, digitValue_digitChar _ hmod]
        simp only [Option.getD_some]
        omega

theorem toDigits_spec (n : Nat) :
    Nat.toDigits 10 n ≠ [] ∧ (∀ c ∈ Nat.toDigits 10 n, isDecimalDigit c = true) ∧
      digitsValue 10 (Nat.toDigits 10 n) = n := by
  obtain ⟨L, h1, h2, h3, h4⟩ := toDigitsCore_spec (n + 1) n [] (by omega)
  have : Nat.toDigits 10 n = L := by simpa [Nat.toDigits] using h1
  rw [this]
  exact ⟨h2, h3, h4⟩

/-! ## `Number` on a run of decimal digits -/

theorem digit_not_space (c : Char) (h : isDecimalDigit c = true) :
    isStrWhiteSpaceChar c = false := by
  rw [isDecimalDigit_iff] at h
  simp only [isStrWhiteSpaceChar, Bool.or_eq_false_iff, Bool.and_eq_false_iff,
    decide_eq_false_iff_not]
  omega

theorem digit_ne_of_toNat (c d : Char) (h : isDecimalDigit c = true)
    (hd : d.toNat < 48 ∨ 57 < d.toNat) : c ≠ d := by
  rw [isDecimalDigit_iff] at h
  rintro rfl
  omega

theorem trim_digits (L : Str) (hne : L ≠ []) (hd : ∀ c ∈ L, isDecimalDigit c = true) :
    trim L = L := by
  unfold trim
  have h1 : L.dropWhile isStrWhiteSpaceChar = L := by
    cases L with
    | nil => rfl
    | cons c cs =>
      simp [List.dropWhile_cons, digit_not_space c (hd c (List.mem_cons_self _ _))]
  rw [h1]
  have h2 : L.reverse.dropWhile isStrWhiteSpaceChar = L.reverse := by
    cases hr : L.reverse with
    | nil => rfl
    | cons c cs =>
      have hc : c ∈ L := by
        have : c ∈ L.reverse := by rw [hr]; exact List.mem_cons_self _ _
        simpa using this
      simp [List.dropWhile_cons, digit_not_space c (hd c hc)]
  rw [h2, List.reverse_reverse]

theorem parseNonDecimal_digits (L : Str) (hd : ∀ c ∈ L, isDecimalDigit c = true) :
    parseNonDecimal L = none := by
  unfold parseNonDecimal
  split
  · rename_i z p ds
    have hp : isDecimalDigit p = true := hd p (by simp)
    have h1 := digit_ne_of_toNat p 'x' hp (by decide)
    have h2 := digit_ne_of_toNat p 'X' hp (by decide)
    have h3 := digit_ne_of_toNat p 'o' hp (by decide)
    have h4 := digit_ne_of_toNat p 'O' hp (by decide)
    have h5 := digit_ne_of_toNat p 'b' hp (by decide)
    have h6 := digit_ne_of_toNat p 'B' hp (by decide)
    simp [h1, h2, h3, h4, h5, h6]
  · rfl

theorem parseUnsignedDecimal_digits (L : Str) (hne : L ≠ [])
    (hd : ∀ c ∈ L, isDecimalDigit c = true) :
    parseUnsignedDecimal false L = JSNum.round (digitsValue 10 L) := by
  have ht : L.takeWhile isDecimalDigit = L := List.takeWhile_eq_self_iff.mpr hd
  have hdr : L.dropWhile isDecimalDigit = [] := List.dropWhile_eq_nil_iff.mpr hd
  unfold parseUnsignedDecimal
  simp only [ht, hdr, hne, false_and, if_false, parseExponent, List.append_nil,
    List.length_nil, Int.Nat.cast_ofNat_Int, sub_self]
  simp [scale10, JSNum.round]

theorem stringToNumber_digits (L : Str) (hne : L ≠ [])
    (hd : ∀ c ∈ L, isDecimalDigit c = true) :
    stringToNumber L = JSNum.round (digitsValue 10 L) := by
  unfold stringToNumber
  simp only [trim_digits L hne hd, hne, if_false, parseNonDecimal_digits L hd]
  cases L with
  | nil => exact absurd rfl hne
  | cons c cs =>
    have hc := hd c (List.mem_cons_self _ _)
    have h1 := digit_ne_of_toNat c '-' hc (by decide)
    have h2 := digit_ne_of_toNat c '+' hc (by decide)
    have h3 := digit_ne_of_toNat c 'I' hc (by decide)
    have hs : stripSign (c :: cs) = (false, c :: cs) := by simp [stripSign, h1, h2]
    rw [hs]
    have hi : (c :: cs) ≠ infinityWord := by
      intro h
      simp only [infinityWord, List.cons.injEq] at h
      exact h3 h.1
    simp only [hi, if_false]
    exact parseUnsignedDecimal_digits (c :: cs) hne hd

/-! ## Number to string and back -/

theorem shortestValue_reads_back (m : Nat) (hm : JSNum.round (m : Int) = JSNum.ofInt (m : Int))
    (j : Nat) : JSNum.round (shortestValue m j : Nat) = JSNum.ofInt (m : Int) := by
  induction j with
  | zero => simpa [shortestValue] using hm
  | succ k ih =>
    unfold shortestValue
    simp only
    split_ifs with h1 h2 h3 h4 h5 h6
    all_goals first
      | exact ih
      | (simp only [Bool.and_eq_true, decide_eq_true_eq] at h1
         first
           | exact h1.1.1
           | exact h1.2)
      | (simp only [Bool.and_eq_true, decide_eq_true_eq] at h5
         exact h5.1)
      | (simp only [Bool.and_eq_true, decide_eq_true_eq] at h6
         exact h6)

theorem foldl_zeros (zs : Str) (hz : ∀ c ∈ zs, c = '0') (x : Nat) :
    zs.foldl (fun acc c => acc * 10 + (digitValue 10 c).getD 0) x = x * 10 ^ zs.length := by
  induction zs generalizing x with
  | nil => simp
  | cons c cs ih =>
    have hc : c = '0' := hz c (List.mem_cons_self _ _)
    have h0 : (digitValue 10 '0').getD 0 = 0 := by decide
    rw [List.foldl_cons, ih (fun y hy => hz y (List.mem_cons_of_mem _ hy)), hc, h0]
    simp only [List.length_cons, add_zero]
    ring

theorem digitsValue_append_zeros (a zs : Str) (hz : ∀ c ∈ zs, c = '0') :
    digitsValue 10 (a ++ zs) = digitsValue 10 a * 10 ^ zs.length := by
  unfold digitsValue
  rw [List.foldl_append, foldl_zeros zs hz]

/-- The digits of a number are its significant digits followed by zeros. -/
theorem significantDigits_spec (v : Nat) :
    ∃ zs : Str, (∀ c ∈ zs, c = '0') ∧ Nat.toDigits 10 v = significantDigits v ++ zs := by
  refine ⟨((Nat.toDigits 10 v).reverse.takeWhile (fun c => c = '0')).reverse, ?_, ?_⟩
  · intro c hc
    rw [List.mem_reverse] at hc
    have := List.mem_takeWhile_imp hc
    simpa using this
  · unfold significantDigits
    rw [← List.reverse_append, List.takeWhile_append_dropWhile, List.reverse_reverse]

theorem takeWhile_digits_append (L : Str) (hd : ∀ c ∈ L, isDecimalDigit c = true) (c : Char)
    (hc : isDecimalDigit c = false) (t : Str) :
    (L ++ c :: t).takeWhile isDecimalDigit = L ∧ (L ++ c :: t).dropWhile isDecimalDigit = c :: t := by
  induction L with
  | nil => simp [List.takeWhile_cons, List.dropWhile_cons, hc]
  | cons x xs ih =>
    have hx := hd x (List.mem_cons_self _ _)
    have ih2 := ih (fun y hy => hd y (List.mem_cons_of_mem _ hy))
    simp [List.takeWhile_cons, List.dropWhile_cons, hx, ih2.1, ih2.2]

/-- Reading the exponent form `d.ddde+N` (or `de+N`) of a number. -/
theorem stringToNumber_exponent_form (d : Char) (ds : Str) (N : Nat)
    (hd : isDecimalDigit d = true) (hds : ∀ c ∈ ds, isDecimalDigit c = true)
    (hN : ds.length ≤ N) :
    stringToNumber ((if ds = [] then [d] else d :: '.' :: ds) ++
        'e' :: '+' :: Nat.toDigits 10 N) =
      JSNum.round ((digitsValue 10 (d :: ds) * 10 ^ (N - ds.length) : Nat) : Int) := by
  obtain ⟨hNne, hNd, hNv⟩ := toDigits_spec N
  have he : isDecimalDigit 'e' = false := by decide
  have hp : isDecimalDigit '.' = false := by decide
  have hexp : parseExponent ('e' :: '+' :: Nat.toDigits 10 N) = some (N : Int) := by
    have hall : (Nat.toDigits 10 N).all isDecimalDigit = true := List.all_eq_true.mpr hNd
    simp [parseExponent, stripSign, hNne, hall, hNv]
  have hval : scale10 false (digitsValue 10 (d :: ds)) ((N : Int) - (ds.length : Int)) =
      JSNum.round ((digitsValue 10 (d :: ds) * 10 ^ (N - ds.length) : Nat) : Int) := by
    have h0 : (0 : Int) ≤ (N : Int) - (ds.length : Int) := by omega
    have h1 : ((N : Int) - (ds.length : Int)).toNat = N - ds.length := by omega
    simp [scale10, h0, h1, JSNum.round]
  have hd1 := digit_ne_of_toNat d '-' hd (by decide)
  have hd2 := digit_ne_of_toNat d '+' hd (by decide)
  have hd3 := digit_ne_of_toNat d 'I' hd (by decide)
  have hlastdigit : ∀ c ∈ (Nat.toDigits 10 N).reverse, isDecimalDigit c = true :=
    fun c hc => hNd c (List.mem_reverse.mp hc)
  by_cases hnil : ds = []
  · subst hnil
    simp only [if_true, List.cons_append, List.nil_append, List.length_nil, Nat.sub_zero,
      Nat.cast_zero, sub_zero] at hval ⊢
    have htrim : trim (d :: 'e' :: '+' :: Nat.toDigits 10 N) =
        d :: 'e' :: '+' :: Nat.toDigits 10 N := by
      unfold trim
      have h1 : (d :: 'e' :: '+' :: Nat.toDigits 10 N).dropWhile isStrWhiteSpaceChar =
          d :: 'e' :: '+' :: Nat.toDigits 10 N := by
        simp [List.dropWhile_cons, digit_not_space d hd]
      rw [h1]
      have h2 : (d :: 'e' :: '+' :: Nat.toDigits 10 N).reverse.dropWhile isStrWhiteSpaceChar =
          (d :: 'e' :: '+' :: Nat.toDigits 10 N).reverse := by
        cases hr : (Nat.toDigits 10 N).reverse with
        | nil => simp at hr; exact absurd hr hNne
        | cons c cs =>
          have hc : isDecimalDigit c = true := hlastdigit c (by rw [hr]; exact List.mem_cons_self _ _)
          simp [List.reverse_cons, hr, List.dropWhile_cons, digit_not_space c hc]
      rw [h2, List.reverse_reverse]
    have hnd : parseNonDecimal (d :: 'e' :: '+' :: Nat.toDigits 10 N) = none := by
      simp [parseNonDecimal]
    have hs : stripSign (d :: 'e' :: '+' :: Nat.toDigits 10 N) =
        (false, d :: 'e' :: '+' :: Nat.toDigits 10 N) := by simp [stripSign, hd1, hd2]
    have hinf : (d :: 'e' :: '+' :: Nat.toDigits 10 N) ≠ infinityWord := by
      intro h
      simp only [infinityWord, List.cons.injEq] at h
      exact hd3 h.1
    have htd := takeWhile_digits_append [d] (by simpa using hd) 'e' he ('+' :: Nat.toDigits 10 N)
    simp only [List.singleton_append] at htd
    unfold stringToNumber
    simp only [htrim, hnd, hs, hinf, if_false, List.cons_ne_nil]
    unfold parseUnsignedDecimal
    simp only [htd.1, htd.2, List.cons_ne_nil, false_and, if_false, hexp, List.append_nil,
      List.length_nil, Nat.cast_zero, sub_zero]
    have : ¬ ('e' = '.') := by decide
    simp only [this, if_false, hexp, List.append_nil, List.length_nil, Nat.cast_zero, sub_zero]
    exact hval
  · simp only [hnil, if_false, List.cons_append]
    have htrim : trim (d :: '.' :: (ds ++ 'e' :: '+' :: Nat.toDigits 10 N)) =
        d :: '.' :: (ds ++ 'e' :: '+' :: Nat.toDigits 10 N) := by
      unfold trim
      have h1 : (d :: '.' :: (ds ++ 'e' :: '+' :: Nat.toDigits 10 N)).dropWhile
          isStrWhiteSpaceChar = d :: '.' :: (ds ++ 'e' :: '+' :: Nat.toDigits 10 N) := by
        simp [List.dropWhile_cons, digit_not_space d hd]
      rw [h1]
      have h2 : (d :: '.' :: (ds ++ 'e' :: '+' :: Nat.toDigits 10 N)).reverse.dropWhile
          isStrWhiteSpaceChar = (d :: '.' :: (ds ++ 'e' :: '+' :: Nat.toDigits 10 N)).reverse := by
        cases hr : (Nat.toDigits 10 N).reverse with
        | nil => simp at hr; exact absurd hr hNne
        | cons c cs =>
          have hc : isDecimalDigit c = true := hlastdigit c (by rw [hr]; exact List.mem_cons_self _ _)
          simp [List.reverse_cons, List.reverse_append, hr, List.dropWhile_cons,
            digit_not_space c hc]
      rw [h2, List.reverse_reverse]
    have hnd : parseNonDecimal (d :: '.' :: (ds ++ 'e' :: '+' :: Nat.toDigits 10 N)) = none := by
      simp [parseNonDecimal]
    have hs : stripSign (d :: '.' :: (ds ++ 'e' :: '+' :: Nat.toDigits 10 N)) =
        (false, d :: '.' :: (ds ++ 'e' :: '+' :: Nat.toDigits 10 N)) := by
      simp [stripSign, hd1, hd2]
    have hinf : (d :: '.' :: (ds ++ 'e' :: '+' :: Nat.toDigits 10 N)) ≠ infinityWord := by
      intro h
      simp only [infinityWord, List.cons.injEq] at h
      exact hd3 h.1
    have htd := takeWhile_digits_append [d] (by simpa using hd) '.' hp
      (ds ++ 'e' :: '+' :: Nat.toDigits 10 N)
    simp only [List.singleton_append] at htd
    have htd2 := takeWhile_digits_append ds hds 'e' he ('+' :: Nat.toDigits 10 N)
    unfold stringToNumber
    simp only [htrim, hnd, hs, hinf, if_false, List.cons_ne_nil]
    unfold parseUnsignedDecimal
    simp only [htd.1, htd.2, htd2.1, htd2.2, if_true, List.cons_ne_nil, false_and, if_false,
      hexp, List.singleton_append]
    exact hval

/-- Reading the text of a natural number gives the number it denotes. -/
theorem stringToNumber_natText (v : Nat) : stringToNumber (natText v) = JSNum.round (v : Int) := by
  obtain ⟨h1, h2, h3⟩ := toDigits_spec v
  have hplain : stringToNumber (Nat.toDigits 10 v) = JSNum.round (v : Int) := by
    rw [stringToNumber_digits _ h1 h2, h3]
  unfold natText
  split_ifs with hlt
  · exact hplain
  · obtain ⟨zs, hz, hsplit⟩ := significantDigits_spec v
    split
    · exact hplain
    · rename_i d ds hsig
      rw [hsig] at hsplit
      have hdig : ∀ c ∈ d :: ds, isDecimalDigit c = true := by
        intro c hc
        apply h2
        rw [hsplit]
        exact List.mem_append_left _ hc
      have hlen : (Nat.toDigits 10 v).length - 1 = ds.length + zs.length := by
        rw [hsplit]
        simp
      rw [hlen, stringToNumber_exponent_form d ds _ (hdig d (List.mem_cons_self _ _))
        (fun c hc => hdig c (List.mem_cons_of_mem _ hc)) (by omega)]
      have hv : digitsValue 10 (d :: ds) * 10 ^ (ds.length + zs.length - ds.length) = v := by
        rw [Nat.add_sub_cancel_left, ← digitsValue_append_zeros _ _ hz, ← hsplit, h3]
      rw [hv]

/-- The characters of the text of a natural number. -/
theorem natText_chars (v : Nat) :
    natText v ≠ [] ∧
      ∀ c ∈ natText v, isDecimalDigit c = true ∨ c = '.' ∨ c = 'e' ∨ c = '+' := by
  obtain ⟨h1, h2, _⟩ := toDigits_spec v
  have hplain : Nat.toDigits 10 v ≠ [] ∧
      ∀ c ∈ Nat.toDigits 10 v, isDecimalDigit c = true ∨ c = '.' ∨ c = 'e' ∨ c = '+' :=
    ⟨h1, fun c hc => Or.inl (h2 c hc)⟩
  unfold natText
  split_ifs with hlt
  · exact hplain
  · obtain ⟨zs, hz, hsplit⟩ := significantDigits_spec v
    split
    · exact hplain
    · rename_i d ds hsig
      rw [hsig] at hsplit
      have hdig : ∀ c ∈ d :: ds, isDecimalDigit c = true := by
        intro c hc
        apply h2
        rw [hsplit]
        exact List.mem_append_left _ hc
      obtain ⟨_, hN, _⟩ := toDigits_spec ((Nat.toDigits 10 v).length - 1)
      constructor
      · split_ifs <;> simp
      · intro c hc
        rw [List.mem_append] at hc
        rcases hc with hc | hc
        · split_ifs at hc with hnil
          · exact Or.inl (hdig c (by simp at hc; simp [hc]))
          · simp only [List.mem_cons] at hc
            rcases hc with hc | hc | hc
            · exact Or.inl (hdig c (by simp [hc]))
            · exact Or.inr (Or.inl hc)
            · exact Or.inl (hdig c (List.mem_cons_of_mem _ hc))
        · simp only [List.mem_cons] at hc
          rcases hc with hc | hc | hc
          · exact Or.inr (Or.inr (Or.inl hc))
          · exact Or.inr (Or.inr (Or.inr hc))
          · exact Or.inl (hN c hc)

/-- Rendering an integer-valued number that is not negative and converting the text back
with `Number` gives the number. -/
theorem Number_natToString (n : Nat) (hn : JSNum.round (n : Int) = JSNum.ofInt (n : Int)) :
    Number (some (intToString (n : Int))) = JSNum.ofInt (n : Int) := by
  have : intToString (n : Int) =
      natText (shortestValue n ((Nat.toDigits 10 n).length - 1)) := by
    simp [intToString]
  rw [this]
  simp only [Number]
  rw [stringToNumber_natText, shortestValue_reads_back n hn]

/-- The characters of a rendered integer are digits, a point, `e`, `+` or `-`. -/
theorem intToString_chars (z : Int) :
    intToString z ≠ [] ∧
      ∀ c ∈ intToString z,
        isDecimalDigit c = true ∨ c = '.' ∨ c = 'e' ∨ c = '+' ∨ c = '-' := by
  obtain ⟨h1, h2⟩ :=
    natText_chars (shortestValue z.natAbs ((Nat.toDigits 10 z.natAbs).length - 1))
  unfold intToString
  simp only
  split_ifs with hneg
  · refine ⟨by simp, fun c hc => ?_⟩
    simp only [List.mem_cons] at hc
    rcases hc with hc | hc
    · exact Or.inr (Or.inr (Or.inr (Or.inr hc)))
    · rcases h2 c hc with h | h | h | h
      · exact Or.inl h
      · exact Or.inr (Or.inl h)
      · exact Or.inr (Or.inr (Or.inl h))
      · exact Or.inr (Or.inr (Or.inr (Or.inl h)))
  · refine ⟨h1, fun c hc => ?_⟩
    rcases h2 c hc with h | h | h | h
    · exact Or.inl h
    · exact Or.inr (Or.inl h)
    · exact Or.inr (Or.inr (Or.inl h))
    · exact Or.inr (Or.inr (Or.inr (Or.inl h)))

theorem intToString_char_ne (z : Int) (d : Char) (hd : d.toNat < 43) :
    ∀ c ∈ intToString z, c ≠ d := by
  intro c hc
  rcases (intToString_chars z).2 c hc with h | h | h | h | h
  · exact digit_ne_of_toNat c d h (by omega)
  all_goals
    rw [h]
    rintro rfl
    revert hd
    decide

set_option maxRecDepth 100000 in
/-- Sample texts: digits up to `2 ^ 53`, the shortest digits that read back above it, and
the exponent form from `10 ^ 21`. -/
theorem intToString_samples :
    intToString 9007199254740992 = "9007199254740992".toList ∧
    intToString 1152921504606846976 = "1152921504606847000".toList ∧
    intToString (-42) = "-42".toList ∧
    intToString 1000000000000000000000 = "1e+21".toList ∧
    intToString 1180591620717411303424 = "1.1805916207174113e+21".toList := by
  decide

/-! ## Summary lines -/

/-- The tokens of a summary line. -/
theorem splitSpaces_summaryLine (name : Str) (n1 n2 n3 n4 n5 n6 : Nat) (tT tP tF tail : Str)
    (hname : ∀ c ∈ name, c ≠ ' ') (hT : ∀ c ∈ tT, c ≠ ' ') (hP : ∀ c ∈ tP, c ≠ ' ')
    (hF : ∀ c ∈ tF, c ≠ ' ') (hTne : tT ≠ []) (hPne : tP ≠ []) (hFne : tF ≠ [])
    (htail : tail = [] ∨ tail.head? = some ' ') :
    ∃ more, splitSpaces (summaryLine name n1 n2 n3 n4 n5 n6 tT tP tF tail) =
      name :: wordTotal :: tT :: wordPass :: tP :: wordFail :: tF :: more := by
  obtain ⟨more, hmore⟩ := splitSpaces_last_word tF hF tail htail
  have hw1 : ∀ c ∈ wordTotal, c ≠ ' ' := by decide
  have hw2 : ∀ c ∈ wordPass, c ≠ ' ' := by decide
  have hw3 : ∀ c ∈ wordFail, c ≠ ' ' := by decide
  have hhead : ∀ (w t : Str), w ≠ [] → (∀ c ∈ w, c ≠ ' ') → (w ++ t).head? ≠ some ' ' := by
    intro w t hne hw
    cases w with
    | nil => exact absurd rfl hne
    | cons c cs =>
      simp only [List.cons_append, List.head?_cons, ne_eq, Option.some.injEq]
      exact hw c (List.mem_cons_self _ _)
  have hhead2 : ∀ (w s t : Str), w ≠ [] → (∀ c ∈ w, c ≠ ' ') →
      (w ++ s ++ t).head? ≠ some ' ' := by
    intro w s t hne hw
    rw [List.append_assoc]
    exact hhead w _ hne hw
  refine ⟨more, ?_⟩
  unfold summaryLine spaces
  rw [splitSpaces_word_sep name hname n1 _ (hhead2 _ _ _ (by decide) hw1),
    splitSpaces_word_sep wordTotal hw1 n2 _ (hhead2 _ _ _ hTne hT),
    splitSpaces_word_sep tT hT n3 _ (hhead2 _ _ _ (by decide) hw2),
    splitSpaces_word_sep wordPass hw2 n4 _ (hhead2 _ _ _ hPne hP),
    splitSpaces_word_sep tP hP n5 _ (hhead2 _ _ _ (by decide) hw3),
    splitSpaces_word_sep wordFail hw3 n6 _ (hhead _ _ hFne hF), hmore]

/-- A summary line is accepted, and its count fields are the three written fields. -/
theorem summaryLine_accepted (name : Str) (n1 n2 n3 n4 n5 n6 : Nat) (tT tP tF tail : Str)
    (hname : ∀ c ∈ name, c ≠ ' ') (hh1 : name.head? ≠ some '#') (hh2 : name.head? ≠ some '!')
    (hT : ∀ c ∈ tT, c ≠ ' ') (hP : ∀ c ∈ tP, c ≠ ' ')
    (hF : ∀ c ∈ tF, c ≠ ' ') (hTne : tT ≠ []) (hPne : tP ≠ []) (hFne : tF ≠ [])
    (htail : tail = [] ∨ tail.head? = some ' ') :
    isSummary (summaryLine name n1 n2 n3 n4 n5 n6 tT tP tF tail) = true ∧
    fieldsOf (summaryLine name n1 n2 n3 n4 n5 n6 tT tP tF tail) =
      Counters.mk (Number (some tT)) (Number (some tP)) (Number (some tF)) := by
  obtain ⟨more, hs⟩ := splitSpaces_summaryLine name n1 n2 n3 n4 n5 n6 tT tP tF tail
    hname hT hP hF hTne hPne hFne htail
  have hhead : (summaryLine name n1 n2 n3 n4 n5 n6 tT tP tF tail).head? ≠ some '#' ∧
      (summaryLine name n1 n2 n3 n4 n5 n6 tT tP tF tail).head? ≠ some '!' := by
    unfold summaryLine spaces
    cases name with
    | nil => simp [List.replicate_succ]
    | cons c cs =>
      simp only [List.cons_append, List.head?_cons] at hh1 hh2 ⊢
      exact ⟨hh1, hh2⟩
  constructor
  · simp [isSummary, hhead.1, hhead.2, hs, badRecord]
  · simp [fieldsOf, hs]

/-! ## The lines of a file -/

theorem replaceCRLF_cons_cons (c x : Char) (r : Str) (hx : x ≠ '\n') :
    replaceCRLF (c :: x :: r) = c :: replaceCRLF (x :: r) := by
  rw [replaceCRLF]
  simp [hx]

theorem replaceCRLF_line (s : Str) (hs : ∀ c ∈ s, c ≠ '\n') (hlast : s.getLast? ≠ some '\r') :
    replaceCRLF (s ++ ['\n']) = s ++ ['\n'] := by
  induction s with
  | nil => simp [replaceCRLF]
  | cons c r ih =>
    cases r with
    | nil =>
      have hc : c ≠ '\r' := by simpa using hlast
      simp [replaceCRLF, hc]
    | cons x r2 =>
      have hx : x ≠ '\n' := hs x (by simp)
      have hlast2 : (x :: r2).getLast? ≠ some '\r' := by
        simpa [List.getLast?_cons_cons] using hlast
      have ih2 := ih (fun y hy => hs y (List.mem_cons_of_mem _ hy)) hlast2
      simp only [List.cons_append] at ih2 ⊢
      rw [replaceCRLF_cons_cons c x _ hx, ih2]

theorem splitChar_line (sep : Char) (s t : Str) (hs : ∀ c ∈ s, c ≠ sep) :
    splitChar sep (s ++ sep :: t) = s :: splitChar sep t := by
  induction s with
  | nil => simp [splitChar]
  | cons c r ih =>
    have hc : c ≠ sep := hs c (List.mem_cons_self _ _)
    have ih2 := ih (fun y hy => hs y (List.mem_cons_of_mem _ hy))
    simp only [List.cons_append]
    rw [splitChar]
    simp [hc, ih2]

/-- A file holding one line and its line terminator has that line and an empty one. -/
theorem fileLines_single (s : Str) (hs : ∀ c ∈ s, c ≠ '\n') (hlast : s.getLast? ≠ some '\r') :
    fileLines (s ++ ['\n']) = [s, []] := by
  unfold fileLines
  rw [replaceCRLF_line s hs hlast, splitChar_line '\n' s [] hs]
  simp [splitChar]

theorem passFailContent_eq (testname : Str) (total pass fail now : Int) :
    passFailContent testname total pass fail now =
      summaryLine testname 0 0 0 0 0 0 (intToString total) (intToString pass)
        (intToString fail) (' ' :: '-' :: '-' :: ' ' :: intToString now) ++ ['\n'] := by
  have e1 : " total ".toList = ' ' :: (wordTotal ++ [' ']) := by decide
  have e2 : " pass ".toList = ' ' :: (wordPass ++ [' ']) := by decide
  have e3 : " fail ".toList = ' ' :: (wordFail ++ [' ']) := by decide
  have e4 : " -- ".toList = [' ', '-', '-', ' '] := by decide
  unfold passFailContent summaryLine spaces
  rw [e1, e2, e3, e4]
  simp [List.replicate]

theorem empty_not_summary : isSummary [] = false ∧ isMarker [] = false := by decide

theorem getLast?_ne_of_suffix (A B : Str) (d : Char) (hB : B ≠ []) (hd : ∀ c ∈ B, c ≠ d) :
    (A ++ B).getLast? ≠ some d := by
  intro h
  rw [List.getLast?_append] at h
  obtain ⟨x, hx⟩ := Option.isSome_iff_exists.mp (List.getLast?_isSome.mpr hB)
  rw [hx] at h
  simp only [Option.or_some, Option.some.injEq] at h
  exact hd x (List.mem_of_getLast?_eq_some hx) h

theorem intFields_of_fieldsOf (l : Str) (t p f : Int)
    (h : fieldsOf l = Counters.ofInts t p f) : intFields l = some (t, p, f) := by
  simp [intFields, h, Counters.ofInts, JSNum.ofInt, JSNum.toInt?]

/-- The line that `writePassFail` writes, without its line terminator. -/
theorem written_line_facts (testname : Str) (hsp : ∀ c ∈ testname, c ≠ ' ')
    (hnl : ∀ c ∈ testname, c ≠ '\n')
    (hh1 : testname.head? ≠ some '#') (hh2 : testname.head? ≠ some '!')
    (t p f : Nat) (now : Int) (hnt : JSNum.round (t : Int) = JSNum.ofInt (t : Int))
    (hnp : JSNum.round (p : Int) = JSNum.ofInt (p : Int))
    (hnf : JSNum.round (f : Int) = JSNum.ofInt (f : Int)) :
    ∃ line, passFailContent testname t p f now = line ++ ['\n'] ∧
      fileLines (line ++ ['\n']) = [line, []] ∧ isSummary line = true ∧
      intFields line = some ((t : Int), (p : Int), (f : Int)) := by
  refine ⟨summaryLine testname 0 0 0 0 0 0 (intToString t) (intToString p)
        (intToString f) (' ' :: '-' :: '-' :: ' ' :: intToString now), passFailContent_eq _ _ _ _ _,
    ?_, ?_, ?_⟩
  · apply fileLines_single
    · intro c hc
      have h1 := intToString_char_ne t '\n' (by decide)
      have h2 := intToString_char_ne p '\n' (by decide)
      have h3 := intToString_char_ne f '\n' (by decide)
      have h4 := intToString_char_ne now '\n' (by decide)
      simp only [summaryLine, spaces, List.mem_append, List.mem_cons, List.mem_replicate,
        wordTotal, wordPass, wordFail] at hc
      rintro rfl
      rcases hc with hc | hc
      · rcases hc with hc | hc
        · exact hnl _ hc rfl
        · exact absurd hc.2 (by decide)
      · simp only [List.not_mem_nil, or_false] at hc
        have e1 := fun h => h1 _ h rfl
        have e2 := fun h => h2 _ h rfl
        have e3 := fun h => h3 _ h rfl
        have e4 := fun h => h4 _ h rfl
        have d1 : ¬ '\n' = 't' := by decide
        have d2 : ¬ '\n' = 'o' := by decide
        have d3 : ¬ '\n' = 'a' := by decide
        have d4 : ¬ '\n' = 'l' := by decide
        have d5 : ¬ '\n' = 'p' := by decide
        have d6 : ¬ '\n' = 's' := by decide
        have d7 : ¬ '\n' = 'f' := by decide
        have d8 : ¬ '\n' = 'i' := by decide
        have d9 : ¬ '\n' = ' ' := by decide
        have d10 : ¬ '\n' = '-' := by decide
        simp only [e1, e2, e3, e4, d1, d2, d3, d4, d5, d6, d7, d8, d9, d10, false_or, or_false,
          false_and, and_false] at hc
        rcases hc with h | h | h | h
        · exact e1 h
        · exact e2 h
        · exact e3 h
        · exact e4 h
    · have : summaryLine testname 0 0 0 0 0 0 (intToString t) (intToString p)
          (intToString f) (' ' :: '-' :: '-' :: ' ' :: intToString now) =
          (testname ++ spaces 0 ++ (wordTotal ++ spaces 0 ++ (intToString t ++ spaces 0 ++
            (wordPass ++ spaces 0 ++ (intToString p ++ spaces 0 ++ (wordFail ++ spaces 0 ++
              (intToString f ++ [' ', '-', '-', ' '])))))) ) ++ intToString now := by
        simp [summaryLine, List.append_assoc]
      rw [this]
      exact getLast?_ne_of_suffix _ _ '\r' (intToString_chars now).1
        (intToString_char_ne now '\r' (by decide))
  · exact (summaryLine_accepted testname 0 0 0 0 0 0 (intToString t) (intToString p)
      (intToString f) (' ' :: '-' :: '-' :: ' ' :: intToString now) hsp hh1 hh2
      (intToString_char_ne t ' ' (by decide)) (intToString_char_ne p ' ' (by decide))
      (intToString_char_ne f ' ' (by decide)) (intToString_chars t).1 (intToString_chars p).1
      (intToString_chars f).1 (Or.inr rfl)).1
  · apply intFields_of_fieldsOf
    rw [(summaryLine_accepted testname 0 0 0 0 0 0 (intToString t) (intToString p)
      (intToString f) (' ' :: '-' :: '-' :: ' ' :: intToString now) hsp hh1 hh2
      (intToString_char_ne t ' ' (by decide)) (intToString_char_ne p ' ' (by decide))
      (intToString_char_ne f ' ' (by decide)) (intToString_chars t).1 (intToString_chars p).1
      (intToString_chars f).1 (Or.inr rfl)).2]
    simp [Number_natToString _ hnt, Number_natToString _ hnp, Number_natToString _ hnf,
      Counters.ofInts]

/-! ## The claims about writing and reading back -/

theorem JSNum.ne_self_ofInt (z : Int) : JSNum.ne (JSNum.ofInt z) (JSNum.ofInt z) = false := by
  simp [JSNum.ne_ofInt]

theorem JSNum.zero_add_ofInt (z : Int) : JSNum.ofInt 0 + JSNum.ofInt z = JSNum.round z := by
  rw [JSNum.ofInt_add_ofInt, zero_add]

/-- Claim C1, amended: for every test name that contains no space and no line feed and does
not begin with `#` or `!`, and all non-negative integers (integer-valued numbers) with
`total = pass + fail`, starting from an empty (or absent) record file, `writePassFail`
does not throw and `readPassFail` with `clear = true` on the file it leaves returns with
the counters equal to exactly `(total, pass, fail)`, whatever they held before. -/
theorem writePassFail_readPassFail_roundtrip (testname : Str)
    (hsp : ∀ c ∈ testname, c ≠ ' ') (hnl : ∀ c ∈ testname, c ≠ '\n')
    (hh1 : testname.head? ≠ some '#') (hh2 : testname.head? ≠ some '!')
    (total pass fail : Int) (hp : 0 ≤ pass) (hf : 0 ≤ fail) (ht : total = pass + fail)
    (hnt : isIntegerNumber total = true) (hnp : isIntegerNumber pass = true)
    (hnf : isIntegerNumber fail = true)
    (now : Int) (file : Option Str) (hfile : file = none ∨ file = some []) (c : Counters) :
    (writePassFail testname total pass fail now file).raised = false ∧
    readPassFail true c (writePassFail testname total pass fail now file).file =
      Outcome.returned (Counters.ofInts total pass fail) := by
  obtain ⟨pn, rfl⟩ := Int.eq_ofNat_of_zero_le hp
  obtain ⟨fn, rfl⟩ := Int.eq_ofNat_of_zero_le hf
  have ht2 : total = ((pn + fn : Nat) : Int) := by rw [ht]; push_cast; rfl
  subst ht2
  have et : JSNum.round ((pn + fn : Nat) : Int) = JSNum.ofInt ((pn + fn : Nat) : Int) := by
    simpa [isIntegerNumber] using hnt
  have ep : JSNum.round (pn : Int) = JSNum.ofInt (pn : Int) := by
    simpa [isIntegerNumber] using hnp
  have ef : JSNum.round (fn : Int) = JSNum.ofInt (fn : Int) := by
    simpa [isIntegerNumber] using hnf
  obtain ⟨line, hcontent, hlines, hsum, hint⟩ :=
    written_line_facts testname hsp hnl hh1 hh2 (pn + fn) pn fn now et ep ef
  have hcons : ((pn + fn : Nat) : Int) = (pn : Int) + (fn : Int) := by push_cast; rfl
  have hsumexact : JSNum.ofInt (pn : Int) + JSNum.ofInt (fn : Int) =
      JSNum.ofInt ((pn + fn : Nat) : Int) := by
    rw [JSNum.ofInt_add_ofInt, ← hcons, et]
  have hw : writePassFail testname ((pn + fn : Nat) : Int) pn fn now file =
      { raised := false, file := some (line ++ ['\n']) } := by
    unfold writePassFail
    rw [et, ep, ef, hsumexact, JSNum.ne_self_ofInt, hcontent]
    rcases hfile with h | h <;> simp [h, appendFile]
  rw [hw]
  refine ⟨rfl, ?_⟩
  have hadd : addRecord Counters.zero (splitSpaces line) =
      Counters.ofInts ((pn + fn : Nat) : Int) pn fn := by
    rw [addRecord_intFields _ line _ _ _ hint]
    simp only [Counters.zero, Counters.ofInts, JSNum.zero_add_ofInt, et, ep, ef]
  have hk : (Counters.ofInts ((pn + fn : Nat) : Int) pn fn).consistent = true := by
    simp only [Counters.consistent, Counters.ofInts, hsumexact, JSNum.ne_self_ofInt]
    rfl
  simp only [readPassFail, if_true, clearCount, hlines]
  rw [readLines_summary _ _ _ hsum, hadd, if_pos hk,
    readLines_not_summary _ _ _ empty_not_summary.1 empty_not_summary.2]
  simp [readLines]

/-- Witness for C1: the name `t1` with counts 5, 3, 2 at time 1700000000000. -/
theorem writePassFail_readPassFail_roundtrip_witness :
    (writePassFail "t1".toList 5 3 2 1700000000000 (some [])).raised = false ∧
    readPassFail true (Counters.ofInts 9 4 4)
      (writePassFail "t1".toList 5 3 2 1700000000000 (some [])).file =
      Outcome.returned (Counters.ofInts 5 3 2) :=
  writePassFail_readPassFail_roundtrip "t1".toList (by decide) (by decide) (by decide)
    (by decide) 5 3 2 (by decide) (by decide) (by decide) (by decide) (by decide) (by decide)
    1700000000000 (some []) (Or.inr rfl) (Counters.ofInts 9 4 4)

set_option maxRecDepth 100000 in
/-- Counterexample to C1 as stated: with the test name `my test`, which contains a space,
the written line is not accepted on replay and the counters stay at zero instead of
`(5, 3, 2)`. -/
theorem roundtrip_fails_for_name_with_space :
    (writePassFail "my test".toList 5 3 2 1700000000000 (some [])).raised = false ∧
    readPassFail true Counters.zero
      (writePassFail "my test".toList 5 3 2 1700000000000 (some [])).file =
      Outcome.returned (Counters.ofInts 0 0 0) ∧
    readPassFail true Counters.zero
      (writePassFail "my test".toList 5 3 2 1700000000000 (some [])).file ≠
      Outcome.returned (Counters.ofInts 5 3 2) := by
  decide

/-- Claim C9, amended: a record line `<name> total <T> pass <P> fail <F>` whose fields are
separated by one or more space characters (U+0020) (the name without a space and not
beginning with `#` or `!`, the count fields non-empty, without a space and converting to
the integers `T`, `P`, `F`) is accepted as a summary line and `T`, `P`, `F` are added to
`total`, `pass`, `fail`; when `T = P + F`, the counters are integers with
`total = pass + fail` and the absolute values of the counters and of the fields add up to at
most `2 ^ 53` (no sum is rounded), replay goes on with the following lines from the exact
sums. -/
theorem readLines_space_separated (name : Str) (n1 n2 n3 n4 n5 n6 : Nat) (tT tP tF tail : Str)
    (hname : ∀ c ∈ name, c ≠ ' ') (hh1 : name.head? ≠ some '#') (hh2 : name.head? ≠ some '!')
    (hT : ∀ c ∈ tT, c ≠ ' ') (hP : ∀ c ∈ tP, c ≠ ' ') (hF : ∀ c ∈ tF, c ≠ ' ')
    (hTne : tT ≠ []) (hPne : tP ≠ []) (hFne : tF ≠ [])
    (htail : tail = [] ∨ tail.head? = some ' ')
    (T P F : Int) (hTv : Number (some tT) = JSNum.ofInt T)
    (hPv : Number (some tP) = JSNum.ofInt P) (hFv : Number (some tF) = JSNum.ofInt F)
    (c : Counters) (rest : List Str) :
    isSummary (summaryLine name n1 n2 n3 n4 n5 n6 tT tP tF tail) = true ∧
    addRecord c (splitSpaces (summaryLine name n1 n2 n3 n4 n5 n6 tT tP tF tail)) =
      Counters.mk (c.total + JSNum.ofInt T) (c.pass + JSNum.ofInt P) (c.fail + JSNum.ofInt F) ∧
    (∀ t p f : Int, c = Counters.ofInts t p f → t = p + f → T = P + F →
      intWeight t p f + intWeight T P F ≤ 2 ^ 53 →
      readLines c (summaryLine name n1 n2 n3 n4 n5 n6 tT tP tF tail :: rest) =
        readLines (Counters.ofInts (t + T) (p + P) (f + F)) rest) := by
  obtain ⟨hs, hf⟩ := summaryLine_accepted name n1 n2 n3 n4 n5 n6 tT tP tF tail
    hname hh1 hh2 hT hP hF hTne hPne hFne htail
  have hi : intFields (summaryLine name n1 n2 n3 n4 n5 n6 tT tP tF tail) = some (T, P, F) := by
    apply intFields_of_fieldsOf
    rw [hf, hTv, hPv, hFv]
    rfl
  have hadd := addRecord_intFields c _ T P F hi
  refine ⟨hs, hadd, ?_⟩
  intro t p f hc htpf hTPF hb
  rw [hc, readLines_summary_ofInts t p f htpf _ rest hs T P F hi hb, if_pos hTPF]

/-- Witness for C9: name `run7`, separators of 2, 1, 3, 1, 1, 2 spaces, fields 5, 3, 2. -/
theorem readLines_space_separated_witness :
    isSummary (summaryLine "run7".toList 1 0 2 0 0 1 "5".toList "3".toList "2".toList []) = true ∧
    addRecord (Counters.ofInts 1 1 0)
        (splitSpaces (summaryLine "run7".toList 1 0 2 0 0 1 "5".toList "3".toList "2".toList [])) =
      Counters.mk (JSNum.ofInt 1 + JSNum.ofInt 5) (JSNum.ofInt 1 + JSNum.ofInt 3)
        (JSNum.ofInt 0 + JSNum.ofInt 2) ∧
    (∀ t p f : Int, Counters.ofInts 1 1 0 = Counters.ofInts t p f → t = p + f →
      (5 : Int) = 3 + 2 → intWeight t p f + intWeight 5 3 2 ≤ 2 ^ 53 →
      readLines (Counters.ofInts 1 1 0)
          (summaryLine "run7".toList 1 0 2 0 0 1 "5".toList "3".toList "2".toList [] :: []) =
        readLines (Counters.ofInts (t + 5) (p + 3) (f + 2)) []) :=
  readLines_space_separated "run7".toList 1 0 2 0 0 1 "5".toList "3".toList "2".toList []
    (by decide) (by decide) (by decide) (by decide) (by decide) (by decide) (by decide)
    (by decide) (by decide) (Or.inl rfl) 5 3 2 (by decide) (by decide) (by decide)
    (Counters.ofInts 1 1 0) []

/-- Counterexample to C9 as stated.  The line `a<TAB>total<TAB>5<TAB>pass<TAB>3<TAB>fail<TAB>2`,
whose fields are separated by tabs, is one token for the split on spaces: it is not
accepted and nothing is added.  And a space-separated line need not add `T`, `P`, `F`: the
field `9007199254740993` adds `2 ^ 53`, and from the consistent counters
`(2 ^ 53 - 1, 2 ^ 53 - 1, 0)` the line `b total 3 pass 2 fail 1` makes `pass` round to
`2 ^ 53` and replay throw. -/
theorem tab_separated_line_not_accepted :
    isSummary "a\ttotal\t5\tpass\t3\tfail\t2".toList = false ∧
    splitSpaces "a\ttotal\t5\tpass\t3\tfail\t2".toList =
      ["a\ttotal\t5\tpass\t3\tfail\t2".toList] ∧
    readLines Counters.zero ["a\ttotal\t5\tpass\t3\tfail\t2".toList] =
      Outcome.returned Counters.zero ∧
    readLines Counters.zero ["a\ttotal\t5\tpass\t3\tfail\t2".toList] ≠
      Outcome.returned (Counters.ofInts 5 3 2) ∧
    Number (some "9007199254740993".toList) = JSNum.ofInt 9007199254740992 ∧
    (Counters.ofInts 9007199254740991 9007199254740991 0).consistent = true ∧
    readLines (Counters.ofInts 9007199254740991 9007199254740991 0)
        ["b total 3 pass 2 fail 1".toList] =
      Outcome.threw (Counters.ofInts 9007199254740994 9007199254740992 1) := by
  decide

/-! ## writePassFail -/

theorem writePassFail_raised (testname : Str) (total pass fail now : Int) (file : Option Str) :
    (writePassFail testname total pass fail now file).raised =
      JSNum.ne (JSNum.round total) (JSNum.round pass + JSNum.round fail) := by
  unfold writePassFail
  split <;> simp_all

/-- Claim C4, amended: for every name that contains no line feed and all integers,
`writePassFail` throws exactly when the test `total != pass + fail` of the code holds, which
is `total ≠ pass + fail` whenever `total`, `pass`, `fail` and `pass + fail` are at most
`2 ^ 53` in absolute value; when it throws the record file is what it was before the call;
when it does not, the file is the earlier content followed by exactly one line, that is a
text without line feed followed by one line feed. -/
theorem writePassFail_atomic (testname : Str) (hnl : ∀ c ∈ testname, c ≠ '\n')
    (total pass fail now : Int) (file : Option Str) :
    ((writePassFail testname total pass fail now file).raised =
      JSNum.ne (JSNum.round total) (JSNum.round pass + JSNum.round fail)) ∧
    (total.natAbs ≤ 2 ^ 53 → pass.natAbs ≤ 2 ^ 53 → fail.natAbs ≤ 2 ^ 53 →
      (pass + fail).natAbs ≤ 2 ^ 53 →
      ((writePassFail testname total pass fail now file).raised = true ↔ total ≠ pass + fail)) ∧
    ((writePassFail testname total pass fail now file).raised = true →
      (writePassFail testname total pass fail now file).file = file) ∧
    ((writePassFail testname total pass fail now file).raised = false →
      ∃ line : Str, (∀ c ∈ line, c ≠ '\n') ∧
        (writePassFail testname total pass fail now file).file =
          some (file.getD [] ++ line ++ ['\n'])) := by
  refine ⟨writePassFail_raised _ _ _ _ _ _, ?_, ?_, ?_⟩
  · intro h1 h2 h3 h4
    rw [writePassFail_raised, JSNum.round_safe _ h1, JSNum.round_safe _ h2,
      JSNum.round_safe _ h3, JSNum.ofInt_add_safe _ _ h4, JSNum.ne_ofInt]
    simp
  · intro hr
    unfold writePassFail at hr ⊢
    split
    · rfl
    · rename_i hn
      simp [hn] at hr
  · intro hr
    have hfile : (writePassFail testname total pass fail now file).file =
        appendFile file (passFailContent testname total pass fail now) := by
      unfold writePassFail at hr ⊢
      split
      · rename_i hn
        simp [hn] at hr
      · rfl
    rw [hfile]
    refine ⟨summaryLine testname 0 0 0 0 0 0 (intToString total) (intToString pass)
      (intToString fail) (' ' :: '-' :: '-' :: ' ' :: intToString now), ?_, ?_⟩
    · intro c hc
      have h1 := intToString_char_ne total '\n' (by decide)
      have h2 := intToString_char_ne pass '\n' (by decide)
      have h3 := intToString_char_ne fail '\n' (by decide)
      have h4 := intToString_char_ne now '\n' (by decide)
      simp only [summaryLine, spaces, List.mem_append, List.mem_cons, List.mem_replicate,
        wordTotal, wordPass, wordFail, List.not_mem_nil, or_false] at hc
      rintro rfl
      have e0 := fun h => hnl _ h rfl
      have e1 := fun h => h1 _ h rfl
      have e2 := fun h => h2 _ h rfl
      have e3 := fun h => h3 _ h rfl
      have e4 := fun h => h4 _ h rfl
      have d1 : ¬ '\n' = 't' := by decide
      have d2 : ¬ '\n' = 'o' := by decide
      have d3 : ¬ '\n' = 'a' := by decide
      have d4 : ¬ '\n' = 'l' := by decide
      have d5 : ¬ '\n' = 'p' := by decide
      have d6 : ¬ '\n' = 's' := by decide
      have d7 : ¬ '\n' = 'f' := by decide
      have d8 : ¬ '\n' = 'i' := by decide
      have d9 : ¬ '\n' = ' ' := by decide
      have d10 : ¬ '\n' = '-' := by decide
      simp only [d1, d2, d3, d4, d5, d6, d7, d8, d9, d10, false_or, or_false,
        false_and, and_false] at hc
      rcases hc with h | h | h | h | h
      · exact e0 h
      · exact e1 h
      · exact e2 h
      · exact e3 h
      · exact e4 h
    · rw [passFailContent_eq]
      cases file <;> simp [appendFile]

/-- Witness for C4: the inconsistent counts 5, 2, 2 on a file that holds one line. -/
theorem writePassFail_atomic_witness :
    (writePassFail "t1".toList 5 2 2 17 (some "old 1\n".toList)).raised = true ∧
    (writePassFail "t1".toList 5 2 2 17 (some "old 1\n".toList)).file =
      some "old 1\n".toList ∧
    (writePassFail "t1".toList 5 3 2 17 (some "old 1\n".toList)).raised = false :=
  ⟨((writePassFail_atomic "t1".toList (by decide) 5 2 2 17 (some "old 1\n".toList)).2.1
      (by decide) (by decide) (by decide) (by decide)).mpr (by decide),
    (writePassFail_atomic "t1".toList (by decide) 5 2 2 17 (some "old 1\n".toList)).2.2.1
      (by decide),
    by decide⟩

set_option maxRecDepth 100000 in
/-- Counterexample to C4 as stated.  With the name `a`, line feed, `b` and the consistent
counts 1, 1, 0 the call does not throw and what it appends holds two line feeds, so two
lines are appended, not exactly one.  And with the counts `2 ^ 53`, `2 ^ 53`, `1`, for
which `total ≠ pass + fail`, the sum `pass + fail` rounds to `2 ^ 53`: the call does not
throw and writes the line. -/
theorem writePassFail_name_with_newline_appends_two_lines :
    (writePassFail "a\nb".toList 1 1 0 17 (some [])).raised = false ∧
    (writePassFail "a\nb".toList 1 1 0 17 (some [])).file =
      some "a\nb total 1 pass 1 fail 0 -- 17\n".toList ∧
    ("a\nb total 1 pass 1 fail 0 -- 17\n".toList.count '\n' = 2) ∧
    (¬ ∃ line : Str, (∀ c ∈ line, c ≠ '\n') ∧
        (writePassFail "a\nb".toList 1 1 0 17 (some [])).file =
          some ((some ([] : Str)).getD [] ++ line ++ ['\n'])) ∧
    (9007199254740992 : Int) ≠ 9007199254740992 + 1 ∧
    (writePassFail "t".toList 9007199254740992 9007199254740992 1 17 (some [])).raised = false ∧
    (writePassFail "t".toList 9007199254740992 9007199254740992 1 17 (some [])).file =
      some "t total 9007199254740992 pass 9007199254740992 fail 1 -- 17\n".toList := by
  refine ⟨by decide, by decide, by decide, ?_, by decide, by decide, by decide⟩
  rintro ⟨line, hline, heq⟩
  have hf : (writePassFail "a\nb".toList 1 1 0 17 (some [])).file =
      some ("a\nb total 1 pass 1 fail 0 -- 17".toList ++ ['\n']) := by decide
  rw [hf] at heq
  simp only [Option.getD_some, List.nil_append, Option.some.injEq] at heq
  have := List.append_cancel_right heq
  rw [← this] at hline
  exact hline '\n' (by decide) rfl

/-! ## Count fields that are not numbers -/

theorem JSNum.isNaN_iff (x : JSNum) : x.isNaN = true ↔ x = JSNum.nan := by
  cases x <;> simp [JSNum.isNaN]

theorem addRecord_nan_inconsistent (c : Counters) (iarray : List Str)
    (h : (Number iarray[2]?).isNaN = true ∨ (Number iarray[4]?).isNaN = true ∨
      (Number iarray[6]?).isNaN = true) :
    (addRecord c iarray).consistent = false := by
  simp only [Counters.consistent, addRecord, Bool.not_eq_false']
  rcases h with h | h | h <;> rw [JSNum.isNaN_iff] at h <;> rw [h]
  · rw [JSNum.add_nan]
    exact JSNum.ne_nan_left _
  · rw [JSNum.add_nan, JSNum.nan_add]
    exact JSNum.ne_nan_right _
  · rw [JSNum.add_nan, JSNum.add_nan]
    exact JSNum.ne_nan_right _

/-- Claim C6, amended: a record line that starts with neither `#` nor `!`, has the words
`total`, `pass`, `fail` at positions 1, 3, 5 and whose count field at position 2, 4 or 6
is missing or does not convert to a number (`Number` gives `NaN`, as for `abc`) is not
skipped: the three converted fields are added to the counters, the test
`total != pass + fail` then holds, and `readPassFail` throws at that line without reading
the following ones. -/
theorem readLines_nan_field_throws (c : Counters) (l : Str) (rest : List Str)
    (h1 : l.head? ≠ some '#') (h2 : l.head? ≠ some '!')
    (hw1 : (splitSpaces l)[1]? = some wordTotal) (hw3 : (splitSpaces l)[3]? = some wordPass)
    (hw5 : (splitSpaces l)[5]? = some wordFail)
    (hnan : (Number (splitSpaces l)[2]?).isNaN = true ∨ (Number (splitSpaces l)[4]?).isNaN = true ∨
      (Number (splitSpaces l)[6]?).isNaN = true) :
    readLines c (l :: rest) = Outcome.threw (addRecord c (splitSpaces l)) ∧
    (addRecord c (splitSpaces l)).consistent = false := by
  have hs : isSummary l = true := by simp [isSummary, h1, h2, badRecord, hw1, hw3, hw5]
  have hk := addRecord_nan_inconsistent c (splitSpaces l) hnan
  refine ⟨?_, hk⟩
  rw [readLines_summary _ _ _ hs, hk]
  simp

/-- Witness for C6: the line `a total 1 pass 1 fail`, whose field at position 6 is missing. -/
theorem readLines_nan_field_throws_witness :
    readLines (Counters.ofInts 4 3 1)
        ("a total 1 pass 1 fail".toList :: ["b total 1 pass 1 fail 0".toList]) =
      Outcome.threw (addRecord (Counters.ofInts 4 3 1) (splitSpaces "a total 1 pass 1 fail".toList)) ∧
    (addRecord (Counters.ofInts 4 3 1) (splitSpaces "a total 1 pass 1 fail".toList)).consistent =
      false :=
  readLines_nan_field_throws (Counters.ofInts 4 3 1) "a total 1 pass 1 fail".toList
    ["b total 1 pass 1 fail 0".toList] (by decide) (by decide) (by decide) (by decide)
    (by decide) (by decide)

/-- Counterexample to C6 as stated: the line `a total abc pass 3 fail 2` is not skipped;
replay throws on it and leaves `total` not a number, `pass` 3 and `fail` 2. -/
theorem non_numeric_field_not_skipped :
    readLines Counters.zero ["a total abc pass 3 fail 2".toList] =
      Outcome.threw (Counters.mk JSNum.nan (JSNum.ofInt 3) (JSNum.ofInt 2)) ∧
    readLines Counters.zero ["a total abc pass 3 fail 2".toList] ≠
      readLines Counters.zero [] := by
  decide

/-! ## The ledger invariant -/

theorem assert_consistent_ofInts (t p f : Int) (htpf : t = p + f) (hp : 0 ≤ p) (hf : 0 ≤ f)
    (ht : t < 2 ^ 53) (b : Bool) (pm fm : Str) :
    (assert (Counters.ofInts t p f) b pm fm).consistent = true := by
  rw [assert_ofInts t p f b pm fm (by omega) (by omega) (by omega)]
  cases b
  · exact (ofInts_consistent_iff _ _ _ (by simp; omega)).mpr (by simp; omega)
  · exact (ofInts_consistent_iff _ _ _ (by simp; omega)).mpr (by simp; omega)

/-- Claim C7, amended: from every ledger state with `total = pass + fail`, the counters
satisfy `total = pass + fail` after `assert` when the state holds non-negative integers with
`total` below `2 ^ 53`, after `clearCount`, after a `readPassFail` call (either clear flag,
any record file) that returns, and after one that throws because the file cannot be read;
after a `readPassFail` call that throws on a line of the file the counters satisfy
`total != pass + fail`. -/
theorem ledger_invariant_preserved (c : Counters) (hc : c.consistent = true) :
    (∀ t p f : Int, c = Counters.ofInts t p f → t = p + f → 0 ≤ p → 0 ≤ f → t < 2 ^ 53 →
      ∀ (condition : Bool) (passmsg failmsg : Str),
        (assert c condition passmsg failmsg).consistent = true) ∧
    (clearCount c).consistent = true ∧
    (∀ (clear : Bool) (file : Option Str) (c1 : Counters),
      readPassFail clear c file = Outcome.returned c1 → c1.consistent = true) ∧
    (∀ (clear : Bool), ∃ c1, readPassFail clear c none = Outcome.threw c1 ∧
      c1.consistent = true) ∧
    (∀ (clear : Bool) (data : Str) (c1 : Counters),
      readPassFail clear c (some data) = Outcome.threw c1 → c1.consistent = false) := by
  have h0 : ∀ clear : Bool, (if clear = true then clearCount c else c).consistent = true := by
    intro clear
    cases clear
    · simpa using hc
    · simpa [clearCount] using zero_consistent
  refine ⟨?_, zero_consistent, ?_, ?_, ?_⟩
  · intro t p f hcf htpf hp hf ht b pm fm
    rw [hcf]
    exact assert_consistent_ofInts t p f htpf hp hf ht b pm fm
  · intro clear file c1 h
    cases file with
    | none => simp [readPassFail] at h
    | some data =>
      simp only [readPassFail] at h
      exact (readLines_invariant _ _).1 (h0 clear) c1 h
  · intro clear
    exact ⟨_, rfl, h0 clear⟩
  · intro clear data c1 h
    simp only [readPassFail] at h
    exact (readLines_invariant _ _).2 c1 h

/-- Witness for C7: the consistent state `(3, 2, 1)`. -/
theorem ledger_invariant_preserved_witness :
    (∀ t p f : Int, Counters.ofInts 3 2 1 = Counters.ofInts t p f → t = p + f → 0 ≤ p →
      0 ≤ f → t < 2 ^ 53 → ∀ (condition : Bool) (passmsg failmsg : Str),
        (assert (Counters.ofInts 3 2 1) condition passmsg failmsg).consistent = true) ∧
    (clearCount (Counters.ofInts 3 2 1)).consistent = true ∧
    (∀ (clear : Bool) (file : Option Str) (c1 : Counters),
      readPassFail clear (Counters.ofInts 3 2 1) file = Outcome.returned c1 →
        c1.consistent = true) ∧
    (∀ (clear : Bool), ∃ c1, readPassFail clear (Counters.ofInts 3 2 1) none = Outcome.threw c1 ∧
      c1.consistent = true) ∧
    (∀ (clear : Bool) (data : Str) (c1 : Counters),
      readPassFail clear (Counters.ofInts 3 2 1) (some data) = Outcome.threw c1 →
        c1.consistent = false) :=
  ledger_invariant_preserved (Counters.ofInts 3 2 1) (by decide)

/-- Counterexample to C7 as stated.  From the consistent counters `(0, 0, 0)`, replay of
the file `x total 5 pass 2 fail 2` throws and leaves the counters `(5, 2, 2)`, for which
`total = pass + fail` fails.  And from the consistent counters `(2 ^ 53 + 2, 2 ^ 53, 2)`,
which replay of a file can leave, one `assert` with a truthy condition gives
`(2 ^ 53 + 4, 2 ^ 53, 2)`, for which it fails too. -/
theorem invariant_broken_after_throw :
    Counters.zero.consistent = true ∧
    readPassFail false Counters.zero (some "x total 5 pass 2 fail 2\n".toList) =
      Outcome.threw (Counters.ofInts 5 2 2) ∧
    (readPassFail false Counters.zero
      (some "x total 5 pass 2 fail 2\n".toList)).counters.consistent = false ∧
    readPassFail true Counters.zero
        (some "y total 9007199254740994 pass 9007199254740992 fail 2\n".toList) =
      Outcome.returned (Counters.ofInts 9007199254740994 9007199254740992 2) ∧
    (Counters.ofInts 9007199254740994 9007199254740992 2).consistent = true ∧
    assert (Counters.ofInts 9007199254740994 9007199254740992 2) true [] [] =
      Counters.ofInts 9007199254740996 9007199254740992 2 ∧
    (assert (Counters.ofInts 9007199254740994 9007199254740992 2) true [] []).consistent =
      false := by
  decide

/-! ## Reset markers and corrupt history -/

/-- Claim C2, amended: for every record file whose summary lines are self-consistent
integer lines and which has at least one line starting with `!`, `readPassFail` returns
with the counters equal to the field-wise sum of only the summary lines after the last
`!` line, whatever the clear flag, provided that the counters it starts from (those before
the call when the flag is false, zero when it is true) are integers with
`total = pass + fail` and that their absolute values and those of all the count fields in
the file add up to at most `2 ^ 53`, so that no sum is rounded. -/
theorem readPassFail_after_reset (clear : Bool) (c : Counters) (t p f : Int)
    (hstart : (if clear = true then clearCount c else c) = Counters.ofInts t p f)
    (htpf : t = p + f) (data : Str)
    (hbound : intWeight t p f + fileWeight (fileLines data) ≤ 2 ^ 53)
    (hgood : ∀ l ∈ fileLines data, isSummary l = true → selfConsistent l = true)
    (hmark : ∃ l ∈ fileLines data, isMarker l = true) :
    readPassFail clear c (some data) =
      Outcome.returned (Counters.ofInts (sumSummaries (afterLastMarker (fileLines data))).1
        (sumSummaries (afterLastMarker (fileLines data))).2.1
        (sumSummaries (afterLastMarker (fileLines data))).2.2) := by
  have hany : (fileLines data).any isMarker = true := by
    obtain ⟨l, hl, hm⟩ := hmark
    exact List.any_eq_true.mpr ⟨l, hl, hm⟩
  simp only [readPassFail]
  rw [hstart]
  exact readLines_after_reset (fileLines data) hgood hany t p f htpf hbound

/-- Witness for C2: block `(5, 3, 2)`, a marker, block `(2, 2, 0)`, read with the flag
false from the counters `(7, 7, 0)`: the result is `(2, 2, 0)`. -/
theorem readPassFail_after_reset_witness :
    readPassFail false (Counters.ofInts 7 7 0)
        (some "a total 5 pass 3 fail 2 -- 1\n! Resetting counters at noon\nb total 2 pass 2 fail 0 -- 2\n".toList) =
      Outcome.returned (Counters.ofInts 2 2 0) :=
  readPassFail_after_reset false (Counters.ofInts 7 7 0) 7 7 0 (by decide) (by decide)
    "a total 5 pass 3 fail 2 -- 1\n! Resetting counters at noon\nb total 2 pass 2 fail 0 -- 2\n".toList
    (by decide) (by decide) (by decide)

/-- Counterexample to C2 as stated.  With the counters `(1, 0, 0)` before the call and the
flag false, replay of block `(5, 3, 2)`, a marker, block `(2, 2, 0)` throws on the first
line with counters `(6, 3, 2)` and never reaches the marker.  And from zero, the
self-consistent lines `(2 ^ 53 - 1, 2 ^ 53 - 1, 0)` and `(3, 2, 1)` before a marker make
`pass` round to `2 ^ 53`: replay throws at the second line instead of returning
`(2, 2, 0)`. -/
theorem reset_replay_throws_from_inconsistent_counters :
    readPassFail false (Counters.ofInts 1 0 0)
        (some "a total 5 pass 3 fail 2 -- 1\n! Resetting counters at noon\nb total 2 pass 2 fail 0 -- 2\n".toList) =
      Outcome.threw (Counters.ofInts 6 3 2) ∧
    readPassFail false (Counters.ofInts 1 0 0)
        (some "a total 5 pass 3 fail 2 -- 1\n! Resetting counters at noon\nb total 2 pass 2 fail 0 -- 2\n".toList) ≠
      Outcome.returned (Counters.ofInts 2 2 0) ∧
    (∀ l ∈ fileLines "a total 9007199254740991 pass 9007199254740991 fail 0\nb total 3 pass 2 fail 1\n! reset\nc total 2 pass 2 fail 0\n".toList,
      isSummary l = true → selfConsistent l = true) ∧
    readPassFail true Counters.zero
        (some "a total 9007199254740991 pass 9007199254740991 fail 0\nb total 3 pass 2 fail 1\n! reset\nc total 2 pass 2 fail 0\n".toList) =
      Outcome.threw (Counters.ofInts 9007199254740994 9007199254740992 1) := by
  decide

/-- Claim C10, amended: for every record file whose accepted summary lines all carry integer
count fields, starting from integer counters with `total = pass + fail` and with either
clear flag, provided that the absolute values of the starting counters and of all the count
fields add up to at most `2 ^ 53` (so that no sum is rounded), `readPassFail` throws exactly
when some accepted summary line has fields with `total != pass + fail`, wherever that line
lies with respect to a reset marker, and it throws at the first such line in file order: the
lines before it are replayed without a throw and the counters at the throw are theirs plus
the fields of that line. -/
theorem readPassFail_throws_iff_corrupt_line (clear : Bool) (t p f : Int) (htpf : t = p + f)
    (data : Str)
    (hint : ∀ l ∈ fileLines data, isSummary l = true → (intFields l).isSome = true)
    (hbound : intWeight t p f + fileWeight (fileLines data) ≤ 2 ^ 53) :
    ((readPassFail clear (Counters.ofInts t p f) (some data)).raised = true ↔
      ∃ l ∈ fileLines data, isSummary l = true ∧ selfConsistent l = false) ∧
    (∀ (pre : List Str) (l : Str) (post : List Str), fileLines data = pre ++ l :: post →
      (∀ x ∈ pre, isSummary x = true → selfConsistent x = true) →
      isSummary l = true → selfConsistent l = false →
      ∃ cpre, readLines (if clear = true then clearCount (Counters.ofInts t p f)
          else Counters.ofInts t p f) pre = Outcome.returned cpre ∧
        readPassFail clear (Counters.ofInts t p f) (some data) =
          Outcome.threw (addRecord cpre (splitSpaces l))) := by
  have hstart : ∃ t0 p0 f0 : Int, t0 = p0 + f0 ∧
      intWeight t0 p0 f0 + fileWeight (fileLines data) ≤ 2 ^ 53 ∧
      (if clear = true then clearCount (Counters.ofInts t p f) else Counters.ofInts t p f) =
        Counters.ofInts t0 p0 f0 := by
    cases clear
    · exact ⟨t, p, f, htpf, hbound, by simp⟩
    · refine ⟨0, 0, 0, by norm_num, ?_, by simp [clearCount, Counters.zero, Counters.ofInts]⟩
      rw [intWeight_zero]
      omega
  obtain ⟨t0, p0, f0, h0, hb0, hc0⟩ := hstart
  simp only [readPassFail]
  rw [hc0]
  constructor
  · exact readLines_raised_iff (fileLines data) hint t0 p0 f0 h0 hb0
  · intro pre l post hsplit hgood hs hbad
    have hi : (intFields l).isSome = true := by
      apply hint l _ hs
      rw [hsplit]
      exact List.mem_append_right _ (List.mem_cons_self _ _)
    rw [hsplit] at hb0 ⊢
    exact readLines_raises_at_first pre l post hgood hs hi hbad t0 p0 f0 h0 hb0

/-- Witness for C10: a good line, a line with fields `(5, 2, 2)`, then a reset marker and
a good line; replay throws at the second line, before the marker. -/
theorem readPassFail_throws_iff_corrupt_line_witness :
    ((readPassFail false (Counters.ofInts 3 2 1)
        (some "a total 1 pass 1 fail 0\nb total 5 pass 2 fail 2\n! reset\nc total 1 pass 1 fail 0\n".toList)).raised
        = true ↔
      ∃ l ∈ fileLines "a total 1 pass 1 fail 0\nb total 5 pass 2 fail 2\n! reset\nc total 1 pass 1 fail 0\n".toList,
        isSummary l = true ∧ selfConsistent l = false) ∧
    (∀ (pre : List Str) (l : Str) (post : List Str),
      fileLines "a total 1 pass 1 fail 0\nb total 5 pass 2 fail 2\n! reset\nc total 1 pass 1 fail 0\n".toList =
        pre ++ l :: post →
      (∀ x ∈ pre, isSummary x = true → selfConsistent x = true) →
      isSummary l = true → selfConsistent l = false →
      ∃ cpre, readLines (if false = true then clearCount (Counters.ofInts 3 2 1)
          else Counters.ofInts 3 2 1) pre = Outcome.returned cpre ∧
        readPassFail false (Counters.ofInts 3 2 1)
          (some "a total 1 pass 1 fail 0\nb total 5 pass 2 fail 2\n! reset\nc total 1 pass 1 fail 0\n".toList) =
          Outcome.threw (addRecord cpre (splitSpaces l))) :=
  readPassFail_throws_iff_corrupt_line false 3 2 1 (by decide)
    "a total 1 pass 1 fail 0\nb total 5 pass 2 fail 2\n! reset\nc total 1 pass 1 fail 0\n".toList
    (by decide) (by decide)

/-- Counterexample to C10 as stated.  From zero, in the file with the lines
`(2 ^ 53 - 1, 2 ^ 53 - 1, 0)` and `(3, 2, 1)` every summary line has integer fields with
`total = pass + fail`, yet replay throws at the second line, where `pass` rounds to
`2 ^ 53`.  And the line written `total 9007199254740992 pass 9007199254740993 fail 0`, whose
written fields do not add up, is read as `(2 ^ 53, 2 ^ 53, 0)` and replay returns. -/
theorem replay_throws_without_corrupt_line :
    (∀ l ∈ fileLines "a total 9007199254740991 pass 9007199254740991 fail 0\nb total 3 pass 2 fail 1\n".toList,
      isSummary l = true → (intFields l).isSome = true ∧ selfConsistent l = true) ∧
    (readPassFail true Counters.zero
        (some "a total 9007199254740991 pass 9007199254740991 fail 0\nb total 3 pass 2 fail 1\n".toList)).raised =
      true ∧
    digitsValue 10 "9007199254740992".toList ≠ digitsValue 10 "9007199254740993".toList + 0 ∧
    readPassFail true Counters.zero
        (some "x total 9007199254740992 pass 9007199254740993 fail 0\n".toList) =
      Outcome.returned (Counters.ofInts 9007199254740992 9007199254740992 0) := by
  decide

end Multi
